import Mathlib

/-!
# Verification of the hardy BPA bundle pipeline against its specification

Shallow embedding of the Rust sources of the hardy repository (a Bundle
Protocol v7 agent).  Bytes are modelled as `List Nat` with values `< 256`,
machine integers as `Nat`, fallible operations as `Option`/`Except`, and
stateful code as explicit state passing.  Each definition is translated from
the Rust file named in its doc comment; functions whose Rust source is not
part of the packaged sources are modelled from the specification and say so
in their doc comment.
-/

namespace Hardy

/-! ## Endpoint identifiers and common bundle data (bpv7 / bpa-core)

Minimal structural model of `Eid` (src/bpv7 `eid.rs`, structural equality)
covering the constructors the verified code paths inspect. -/

/-- EID sum type; equality is structural (spec §3, `Eid` in bpv7). -/
inductive Eid where
  | null : Eid
  | localNode (service : Nat) : Eid
  | ipn (allocator node service : Nat) : Eid
  | dtn (authority path : String) : Eid
deriving DecidableEq, Repr

/-- Creation timestamp (src/bpa-core/src/bundle/creation_timestamp.rs):
milliseconds since the DTN epoch plus a sequence number. -/
structure CreationTimestamp where
  creation_time : Nat
  sequence_number : Nat
deriving DecidableEq, Repr

/-- Fragment information of a `BundleId` (spec §3). -/
structure FragmentInfo where
  offset : Nat
  total_len : Nat
deriving DecidableEq, Repr

/-- `BundleId` (spec §3): source EID + creation timestamp + optional
fragment info; the metadata-store primary key. -/
structure BundleId where
  source : Eid
  timestamp : CreationTimestamp
  fragment_info : Option FragmentInfo := none
deriving DecidableEq, Repr

/-- Bundle processing flags (src/bpv7 `bundle_flags.rs`, named bits per
spec §3); `unrecognised` carries the unknown bits mask. -/
structure BundleFlags where
  is_admin_record : Bool := false
  do_not_fragment : Bool := false
  app_ack_requested : Bool := false
  report_status_time : Bool := false
  receipt_report_requested : Bool := false
  forward_report_requested : Bool := false
  delivery_report_requested : Bool := false
  delete_report_requested : Bool := false
  unrecognised : Nat := 0
deriving DecidableEq, Repr

/-- Block processing flags (src/bpv7 `block_flags.rs`). -/
structure BlockFlags where
  must_replicate : Bool := false
  report_on_failure : Bool := false
  delete_bundle_on_failure : Bool := false
  delete_block_on_failure : Bool := false
  unrecognised : Nat := 0
deriving DecidableEq, Repr

/-- Block types recognised by the agent (src/bpv7 `block_type.rs`). -/
inductive BlockType where
  | primary
  | payload
  | previousNode
  | bundleAge
  | hopCount
  | unrecognised (code : Nat)
deriving DecidableEq, Repr

/-- CRC type of a block (src/bpv7/src/crc.rs `CrcType`). -/
inductive CrcType where
  | none
  | crc16_x25
  | crc32_castagnoli
deriving DecidableEq, Repr

/-- Hop-count block content (src/bpv7 `hop_info.rs`): `limit` and `count`. -/
structure HopInfo where
  limit : Nat
  count : Nat
deriving DecidableEq, Repr

/-- Status-report reason codes (spec §4.8, src/bpv7 `status_report.rs`). -/
inductive StatusReportReasonCode where
  | noAdditionalInformation
  | lifetimeExpired
  | forwardedOverUnidirectionalLink
  | transmissionCanceled
  | depletedStorage
  | destinationEndpointIDUnavailable
  | noKnownRouteToDestinationFromHere
  | noTimelyContactWithNextNodeOnRoute
  | blockUnintelligible
  | hopLimitExceeded
  | trafficPared
  | blockUnsupported
deriving DecidableEq, Repr

/-- A block of a parsed bundle (src/bpv7 `block.rs`): parsed form plus the
recorded byte range `[data_start, data_start + data_len)` of the whole block
within the source data, used for byte-exact copy during edits. -/
structure Block where
  block_type : BlockType
  flags : BlockFlags := {}
  crc_type : CrcType := .none
  data_start : Nat := 0
  data_len : Nat := 0
deriving DecidableEq, Repr

/-- In-memory bundle (spec §3, src/bpv7 `bundle.rs`): primary-block fields
plus the block map.  The block map is a Rust `HashMap<u64, Block>`; it is
modelled as an association list whose order carries no meaning (`HashMap`
iteration order is unspecified). -/
structure Bundle where
  id : BundleId
  flags : BundleFlags := {}
  crc_type : CrcType := .none
  destination : Eid := .null
  report_to : Eid := .null
  lifetime : Nat := 0
  previous_node : Option Eid := none
  age : Option Nat := none
  hop_count : Option HopInfo := none
  blocks : List (Nat × Block) := []
deriving DecidableEq, Repr

/-- Bundle status (spec §3, src/bpa `metadata.rs` `BundleStatus`);
timestamps are `Nat` milliseconds. -/
inductive BundleStatus where
  | ingressPending
  | dispatchPending
  | reassemblyPending
  | collectionPending
  | forwardPending
  | forwardAckPending (handle : Nat) (til : Nat)
  | waiting (til : Nat)
  | tombstone (since : Nat)
deriving DecidableEq, Repr

/-- Bundle metadata row (spec §3, src/bpa `metadata.rs`). -/
structure Metadata where
  status : BundleStatus := .ingressPending
  storage_name : Option String := none
  hash : Option (List Nat) := none
  received_at : Option Nat := none
deriving DecidableEq, Repr

/-- A metadata row together with its parsed bundle
(src/bpa `metadata.rs` `metadata::Bundle`). -/
structure MBundle where
  metadata : Metadata
  bundle : Bundle
deriving DecidableEq, Repr

/-- Modelled from the spec: bundle expiry (the bpa `bundle` helper
`get_bundle_expiry` is not under src/).  A bundle expires when its creation
time plus its lifetime has passed (spec §3 lifecycle: "destroyed when the
lifetime expires"). -/
def MBundle.expiry (b : MBundle) : Nat :=
  b.bundle.id.timestamp.creation_time + b.bundle.lifetime

/-- Modelled from the spec: `has_expired` compares the expiry with the
current time. -/
def MBundle.has_expired (b : MBundle) (now : Nat) : Bool :=
  decide (b.expiry ≤ now)

end Hardy

namespace Hardy.ClaRegistry

/-! ## C1 — CLA registry registration (src/bpa/src/cla_registry.rs)

`ClaRegistry::register` connects to the CLA, mints a unique token, then
scans the registered CLAs and decides between a conflict error and
insertion.  The registry's two hash maps are modelled by the list of
registered CLAs (the values of `clas_by_token`); the freshly sampled token
is passed as an argument (the Rust code samples random tokens until the
token is unused). -/

/-- A registered CLA (src/bpa/src/cla_registry.rs `struct Cla`, minus the
gRPC channel, which carries no registration logic). -/
structure Cla where
  token : String
  name : String
  ident : String
  protocol : String
deriving DecidableEq, Repr

/-- A registration request (`RegisterClaRequest` fields used by
`ClaRegistry::register`). -/
structure RegisterClaRequest where
  ident : String
  name : String
  protocol : String
deriving DecidableEq, Repr

/-- Outcome of `register`: either an `already_exists` conflict status or a
response carrying the minted token. -/
inductive RegisterResult where
  | alreadyExists (message : String)
  | ok (token : String)
deriving DecidableEq, Repr

/-- src/bpa/src/cla_registry.rs lines 40-92, `ClaRegistry::register` after
the connection and token-minting steps: the loop over `clas_by_token`
returns `already_exists` as soon as it sees a registered CLA whose `ident`
differs from the request's (`if cla.ident != request.ident`); otherwise the
new CLA is inserted under the fresh token.  `token` is the minted token,
already checked unique. -/
def register (clas : List Cla) (request : RegisterClaRequest) (token : String) :
    RegisterResult × List Cla :=
  match clas.find? (fun cla => cla.ident != request.ident) with
  | some _ =>
      (.alreadyExists ("CLA " ++ request.ident ++ " already registered"), clas)
  | none =>
      (.ok token,
        clas ++ [{ token := token, name := request.name,
                   ident := request.ident, protocol := request.protocol }])

/-- Whether some registered CLA carries this `ident`. -/
def hasIdent (clas : List Cla) (ident : String) : Bool :=
  clas.any (fun cla => cla.ident == ident)

end Hardy.ClaRegistry

namespace Hardy.Dispatcher

open Hardy

/-! ## C2 — delivered status reports (src/bpa/src/dispatcher.rs)

The dispatcher `Config` holds the global `status_reports` flag; each
`report_bundle_*` helper first checks that flag and the matching
per-bundle request flag, then builds and dispatches a report bundle. -/

/-- The status-report payload parameters passed to
`new_bundle_status_report` (src/bpa/src/dispatcher.rs lines 870-963):
which assertion is being made and with which reason. -/
structure StatusReport where
  reason : StatusReportReasonCode
  forwarded : Option Nat := none
  delivered : Option Nat := none
  deleted : Option Nat := none
deriving DecidableEq, Repr

/-- src/bpa/src/dispatcher.rs lines 692-718, `Dispatcher::report_bundle_delivered`:
returns the report that is built and dispatched, or `none` when the guard
`!self.config.status_reports || !bundle.flags.forward_report_requested`
short-circuits.  (`now` stands for `time::OffsetDateTime::now_utc()`.) -/
def report_bundle_delivered (status_reports : Bool) (bundle : Bundle) (now : Nat) :
    Option StatusReport :=
  if !status_reports || !bundle.flags.forward_report_requested then
    none
  else
    some { reason := .noAdditionalInformation, delivered := some now }

/-- src/bpa/src/dispatcher.rs lines 720-747, `Dispatcher::report_bundle_deleted`:
guarded by `status_reports` and `delete_report_requested`. -/
def report_bundle_deleted (status_reports : Bool) (bundle : Bundle)
    (reason : StatusReportReasonCode) (now : Nat) : Option StatusReport :=
  if !status_reports || !bundle.flags.delete_report_requested then
    none
  else
    some { reason := reason, deleted := some now }

/-- src/bpa/src/dispatcher.rs lines 644-663, `Dispatcher::report_bundle_reception`:
guarded by `status_reports` and `receipt_report_requested`. -/
def report_bundle_reception (status_reports : Bool) (bundle : Bundle)
    (reason : StatusReportReasonCode) : Option StatusReport :=
  if !status_reports || !bundle.flags.receipt_report_requested then
    none
  else
    some { reason := reason }

end Hardy.Dispatcher

namespace Hardy.Store

open Hardy

/-! ## C3 — application collect (src/bpa/src/dispatcher.rs lines 823-859)

`Dispatcher::collect` looks the bundle up in the metadata store, checks the
status, expiry and destination, loads the payload data, reports delivery
and returns; the store is modelled as explicit state, threaded through and
returned so that any mutation would be visible. -/

/-- The two-tier store state: metadata rows keyed by `BundleId` and
bundle-data blobs keyed by storage name (spec §4.3). -/
structure StoreState where
  metadata : List (BundleId × MBundle) := []
  blobs : List (String × List Nat) := []
deriving DecidableEq, Repr

/-- Metadata-store load (spec §4.3 `load(bundle_id)`). -/
def load (store : StoreState) (id : BundleId) : Option MBundle :=
  (store.metadata.find? (fun p => p.1 == id)).map (·.2)

/-- Bundle-data load (spec §4.3 `load(storage_name)`). -/
def load_data (store : StoreState) (name : String) : Option (List Nat) :=
  (store.blobs.find? (fun p => p.1 == name)).map (·.2)

/-- src/bpa/src/dispatcher.rs lines 823-859, `Dispatcher::collect`: on a
`CollectionPending` bundle that has not expired and whose destination
matches, it loads the data, reports delivery and returns
`(bundle id, payload, expiry)` — without writing any status change; the
returned `StoreState` is the store as the function leaves it.
`.error` models the `?` propagation when the data blob fails to load. -/
def collect (store : StoreState) (status_reports : Bool) (now : Nat)
    (destination : Eid) (bundle_id : BundleId) :
    Except String (Option (BundleId × List Nat × Nat) × StoreState ×
      Option Dispatcher.StatusReport) :=
  match load store bundle_id with
  | none => .ok (none, store, none)
  | some mb =>
    match mb.metadata.status with
    | .collectionPending =>
        let expiry := mb.expiry
        if expiry ≤ now || mb.bundle.destination != destination then
          .ok (none, store, none)
        else
          match mb.metadata.storage_name.bind (load_data store) with
          | none => .error "load_data failed"
          | some data =>
              .ok (some (mb.bundle.id, data, expiry), store,
                Dispatcher.report_bundle_delivered status_reports mb.bundle now)
    | _ => .ok (none, store, none)

end Hardy.Store

namespace Hardy.Inputs

open Hardy

/-! Concrete inputs used by the evaluation theorems. -/

/-- A sample bundle id. -/
def idA : BundleId := { source := .ipn 0 2 1, timestamp := ⟨1000, 7⟩ }

/-- A registered CLA with ident `"A"`. -/
def claA : ClaRegistry.Cla :=
  { token := "tok0aaaaaaaaaaaa", name := "cla-a", ident := "A", protocol := "tcp" }

/-- Registration request repeating ident `"A"`. -/
def reqA : ClaRegistry.RegisterClaRequest :=
  { ident := "A", name := "cla-a2", protocol := "tcp" }

/-- Registration request with the fresh ident `"B"`. -/
def reqB : ClaRegistry.RegisterClaRequest :=
  { ident := "B", name := "cla-b", protocol := "tcp" }

/-- A bundle whose only report request is `delivery_report_requested`. -/
def bundleDeliveryOnly : Bundle :=
  { id := idA, flags := { delivery_report_requested := true },
    destination := .ipn 0 9 1, report_to := .ipn 0 2 0, lifetime := 60000 }

/-- A bundle whose only report request is `forward_report_requested`. -/
def bundleForwardOnly : Bundle :=
  { id := idA, flags := { forward_report_requested := true },
    destination := .ipn 0 9 1, report_to := .ipn 0 2 0, lifetime := 60000 }

/-- A collection-pending metadata row for `bundleDeliveryOnly`. -/
def mbCollect : MBundle :=
  { metadata := { status := .collectionPending, storage_name := some "blob1",
                  hash := some [1], received_at := some 1100 },
    bundle := bundleDeliveryOnly }

/-- A store holding `mbCollect` and its payload blob. -/
def storeCollect : Store.StoreState :=
  { metadata := [(idA, mbCollect)], blobs := [("blob1", [0x42, 0x43])] }

end Hardy.Inputs

namespace Hardy

/-- C1: `ClaRegistry::register` (src/bpa/src/cla_registry.rs lines 40-92)
was claimed to return an already-exists conflict error iff some registered
CLA has the same `ident` as the request.  The code's duplicate check is
inverted (`if cla.ident != request.ident`): with a CLA of ident "A"
registered, re-registering ident "A" succeeds and mints a token, while
registering the fresh ident "B" is rejected as already existing — the exact
opposite of the claim, of the spec, and of the code's own error message
"CLA {} already registered". -/
theorem cla_register_ident_check_inverted :
    (ClaRegistry.register [Inputs.claA] Inputs.reqA "tok1bbbbbbbbbbbb").1 =
        .ok "tok1bbbbbbbbbbbb"
    ∧ ClaRegistry.hasIdent [Inputs.claA] Inputs.reqA.ident = true
    ∧ (ClaRegistry.register [Inputs.claA] Inputs.reqB "tok1bbbbbbbbbbbb").1 =
        .alreadyExists "CLA B already registered"
    ∧ ClaRegistry.hasIdent [Inputs.claA] Inputs.reqB.ident = false := by
  refine ⟨rfl, rfl, ?_, rfl⟩
  rfl

/-- C2: `Dispatcher::report_bundle_delivered` (src/bpa/src/dispatcher.rs
lines 692-718) was claimed to emit a delivered report iff `status_reports`
is enabled and `delivery_report_requested` is set.  The guard actually
tests `forward_report_requested`: with status reports enabled, a bundle
requesting only delivery reports gets no report, and a bundle requesting
only forward reports gets one. -/
theorem report_bundle_delivered_checks_forward_flag :
    Dispatcher.report_bundle_delivered true Inputs.bundleDeliveryOnly 5000 = none
    ∧ Inputs.bundleDeliveryOnly.flags.delivery_report_requested = true
    ∧ Dispatcher.report_bundle_delivered true Inputs.bundleForwardOnly 5000 =
        some { reason := .noAdditionalInformation, delivered := some 5000 }
    ∧ Inputs.bundleForwardOnly.flags.delivery_report_requested = false := by
  exact ⟨rfl, rfl, rfl, rfl⟩

/-- C3: `Dispatcher::collect` (src/bpa/src/dispatcher.rs lines 823-859) was
claimed to leave the collected bundle's status as `Tombstone` so that a
second collect returns nothing.  The code never writes a status: collecting
a `CollectionPending` bundle returns its payload and leaves the store
unchanged (status still `CollectionPending`), and a second collect of the
same bundle id returns the same payload again. -/
theorem collect_leaves_no_tombstone :
    Store.collect Inputs.storeCollect true 2000 (.ipn 0 9 1) Inputs.idA =
      .ok (some (Inputs.idA, [0x42, 0x43], 61000), Inputs.storeCollect,
        none)
    ∧ (Store.load Inputs.storeCollect Inputs.idA).map (·.metadata.status) =
        some .collectionPending
    ∧ Store.collect Inputs.storeCollect true 2100 (.ipn 0 9 1) Inputs.idA =
      .ok (some (Inputs.idA, [0x42, 0x43], 61000), Inputs.storeCollect,
        none) := by
  exact ⟨rfl, rfl, rfl⟩

end Hardy

namespace Hardy

/-- Whether a block type is `Unrecognised` (matches the
`if let bpv7::BlockType::Unrecognised(_)` patterns in the dispatcher). -/
def BlockType.isUnrecognised : BlockType → Bool
  | .unrecognised _ => true
  | _ => false

end Hardy

namespace Hardy.Ingress

open Hardy

/-! ## C8/C10 — ingress checks (src/bpa/src/dispatcher/ingress.rs)

`Dispatcher::check_bundle` runs the semantic checks (lifetime, hop count,
extension blocks) and drops the bundle when a reason comes back;
`check_extension_blocks` walks the block map with a one-shot `unsupported`
latch for reporting. -/

/-- src/bpa/src/dispatcher/ingress.rs lines 207-243,
`Dispatcher::check_extension_blocks`, as a recursion over the remaining
blocks with the `unsupported` latch: for each `Unrecognised` block, a
reception report with reason `BlockUnsupported` is emitted at most once
(and only when `report_on_failure` is set), and the walk returns
`Some(BlockUnsupported)` as soon as a block with
`delete_bundle_on_failure` is seen.  Returns the emitted reports and the
resulting reason. -/
def check_extension_blocks_go (status_reports : Bool) (mb : MBundle) :
    List (Nat × Block) → Bool →
    List Dispatcher.StatusReport × Option StatusReportReasonCode
  | [], _ => ([], none)
  | (_, block) :: rest, unsupported =>
    if block.block_type.isUnrecognised then
      let reports :=
        if block.flags.report_on_failure && !unsupported then
          (Dispatcher.report_bundle_reception status_reports mb.bundle
            .blockUnsupported).toList
        else []
      let unsupported := unsupported || block.flags.report_on_failure
      if block.flags.delete_bundle_on_failure then
        (reports, some .blockUnsupported)
      else
        let (rs, res) := check_extension_blocks_go status_reports mb rest unsupported
        (reports ++ rs, res)
    else
      check_extension_blocks_go status_reports mb rest unsupported

/-- Entry point of the walk, over the bundle's block map with the latch
initially clear. -/
def check_extension_blocks (status_reports : Bool) (mb : MBundle) :
    List Dispatcher.StatusReport × Option StatusReportReasonCode :=
  check_extension_blocks_go status_reports mb mb.bundle.blocks false

/-- src/bpa/src/dispatcher/ingress.rs lines 155-205,
`Dispatcher::check_bundle`'s reason computation: an incoming `reason`
stands, otherwise lifetime expiry is checked first, then the hop count
(`hop_info.count >= hop_info.limit`), then the extension blocks.  Returns
the reports emitted by the extension-block walk and the final reason (the
bundle is dropped exactly when the reason is `some`). -/
def check_bundle (status_reports : Bool) (mb : MBundle) (now : Nat)
    (reason : Option StatusReportReasonCode) :
    List Dispatcher.StatusReport × Option StatusReportReasonCode :=
  let reason :=
    match reason with
    | some r => some r
    | none =>
      if mb.has_expired now then some .lifetimeExpired
      else
        match mb.bundle.hop_count with
        | some hop_info =>
            if hop_info.limit ≤ hop_info.count then some .hopLimitExceeded
            else none
        | none => none
  match reason with
  | some r => ([], some r)
  | none => check_extension_blocks status_reports mb

/-- The reason returned by the walk does not depend on the latch and is
`some BlockUnsupported` exactly when some block is unrecognised with
`delete_bundle_on_failure` set. -/
theorem check_extension_blocks_go_snd (status_reports : Bool) (mb : MBundle)
    (blocks : List (Nat × Block)) (u : Bool) :
    (check_extension_blocks_go status_reports mb blocks u).2 =
      if blocks.any
          (fun p => p.2.block_type.isUnrecognised &&
            p.2.flags.delete_bundle_on_failure) then
        some .blockUnsupported
      else none := by
  induction blocks generalizing u with
  | nil => simp [check_extension_blocks_go]
  | cons hd tl ih =>
    obtain ⟨n, block⟩ := hd
    simp only [check_extension_blocks_go, List.any_cons]
    by_cases hu : block.block_type.isUnrecognised
    · by_cases hd2 : block.flags.delete_bundle_on_failure
      · simp [hu, hd2]
      · rw [Bool.not_eq_true] at hd2
        by_cases htl : tl.any
            (fun p => p.2.block_type.isUnrecognised &&
              p.2.flags.delete_bundle_on_failure) = true
        · simp [hu, hd2, ih, htl]
        · rw [Bool.not_eq_true] at htl
          simp [hu, hd2, ih, htl]
    · rw [Bool.not_eq_true] at hu
      by_cases htl : tl.any
          (fun p => p.2.block_type.isUnrecognised &&
            p.2.flags.delete_bundle_on_failure) = true
      · simp [hu, ih, htl]
      · rw [Bool.not_eq_true] at htl
        simp [hu, ih, htl]

/-- The walk emits at most one report when the latch is clear, and none
when it is set. -/
theorem check_extension_blocks_go_fst_length (status_reports : Bool)
    (mb : MBundle) (blocks : List (Nat × Block)) (u : Bool) :
    (check_extension_blocks_go status_reports mb blocks u).1.length ≤
      (if u then 0 else 1) := by
  induction blocks generalizing u with
  | nil =>
    simp [check_extension_blocks_go]
  | cons hd tl ih =>
    simp only [check_extension_blocks_go]
    by_cases hu : hd.2.block_type.isUnrecognised
    · simp only [hu, if_true]
      by_cases hr : hd.2.flags.report_on_failure
      · -- the latch is (or becomes) set after this block
        by_cases hd2 : hd.2.flags.delete_bundle_on_failure
        · cases u with
          | false =>
            simp only [hr, hd2, Bool.not_false, Bool.and_true, Bool.or_true,
              if_true, Bool.and_self]
            cases Dispatcher.report_bundle_reception status_reports mb.bundle
              .blockUnsupported <;> simp [Option.toList]
          | true => simp [hr, hd2]
        · cases u with
          | false =>
            have htl := ih true
            simp only [if_pos rfl] at htl
            simp only [hr, hd2, Bool.not_false, Bool.and_true, if_true,
              Bool.or_true, if_false, Bool.false_or]
            have : (check_extension_blocks_go status_reports mb tl true).1.length = 0 :=
              Nat.le_zero.mp htl
            cases Dispatcher.report_bundle_reception status_reports mb.bundle
              .blockUnsupported <;>
              simp [Option.toList, this]
          | true =>
            have htl := ih true
            simp only [if_pos rfl] at htl
            simp only [hr, hd2, Bool.not_true, Bool.and_false, if_false,
              Bool.or_true, Bool.true_or]
            simpa using htl
      · by_cases hd2 : hd.2.flags.delete_bundle_on_failure
        · simp [hr, hd2]
        · have htl := ih (u || false)
          simp only [hr, hd2, Bool.and_false, Bool.false_and, if_false,
            Bool.or_false, List.nil_append]
          simpa using ih u
    · simpa [hu] using ih u

/-- C10: `Dispatcher::check_extension_blocks`
(src/bpa/src/dispatcher/ingress.rs lines 207-243): over any bundle, even
with several `Unrecognised` blocks whose `report_on_failure` flag is set,
at most one reception report with reason `BlockUnsupported` is emitted;
and the walk asks for the bundle to be dropped with reason
`BlockUnsupported` exactly when some `Unrecognised` block has
`delete_bundle_on_failure` set. -/
theorem check_extension_blocks_reports_once_drops_iff (status_reports : Bool)
    (mb : MBundle) :
    (check_extension_blocks status_reports mb).1.length ≤ 1
    ∧ ((check_extension_blocks status_reports mb).2 =
          some .blockUnsupported ↔
        ∃ p ∈ mb.bundle.blocks, p.2.block_type.isUnrecognised = true ∧
          p.2.flags.delete_bundle_on_failure = true) := by
  constructor
  · have h := check_extension_blocks_go_fst_length status_reports mb
      mb.bundle.blocks false
    simpa [check_extension_blocks] using h
  · rw [check_extension_blocks, check_extension_blocks_go_snd]
    cases hany : mb.bundle.blocks.any
        (fun p => p.2.block_type.isUnrecognised &&
          p.2.flags.delete_bundle_on_failure) with
    | true =>
      simp only [hany, if_true, true_iff]
      rcases List.any_eq_true.mp hany with ⟨p, hp, hpp⟩
      have hpp' := hpp
      simp only [Bool.and_eq_true] at hpp'
      exact ⟨p, hp, hpp'.1, hpp'.2⟩
    | false =>
      simp only [hany, Bool.false_eq_true, if_false]
      constructor
      · intro hc; exact absurd hc (by simp)
      · rintro ⟨p, hp, h1, h2⟩
        have : mb.bundle.blocks.any
            (fun p => p.2.block_type.isUnrecognised &&
              p.2.flags.delete_bundle_on_failure) = true :=
          List.any_eq_true.mpr ⟨p, hp, by simp only [h1, h2, Bool.and_self]⟩
        rw [hany] at this
        exact absurd this (by simp)

end Hardy.Ingress

namespace Hardy.Cbor

/-! ## CBOR emission primitives

`write_uint_minor` is translated from src/bpa/src/cbor/encode.rs; the
array/byte-string wrappers follow the wire format of spec §6 (the
hardy_cbor crate itself is not under src/). -/

/-- src/bpa/src/cbor/encode.rs lines 9-37, `write_uint_minor`: shortest
encoding of `val` under the given major type (the `as u8` casts keep the
low byte). -/
def write_uint_minor (major val : Nat) : List Nat :=
  if val < 24 then [(major <<< 5) ||| val]
  else if val ≤ 0xFF then [(major <<< 5) ||| 24, val]
  else if val ≤ 0xFFFF then [(major <<< 5) ||| 25, val >>> 8, val &&& 0xFF]
  else if val ≤ 0xFFFFFFFF then
    [(major <<< 5) ||| 26, (val >>> 24) &&& 0xFF, (val >>> 16) &&& 0xFF,
      (val >>> 8) &&& 0xFF, val &&& 0xFF]
  else
    [(major <<< 5) ||| 27, (val >>> 56) &&& 0xFF, (val >>> 48) &&& 0xFF,
      (val >>> 40) &&& 0xFF, (val >>> 32) &&& 0xFF, (val >>> 24) &&& 0xFF,
      (val >>> 16) &&& 0xFF, (val >>> 8) &&& 0xFF, val &&& 0xFF]

/-- CBOR unsigned integer (major type 0). -/
def emit_uint (val : Nat) : List Nat := write_uint_minor 0 val

/-- Modelled from the spec (§6 wire format): hardy_cbor's
`emit_array(Some(n), ...)` — a definite-length array header followed by the
concatenated items (the hardy_cbor crate is not under src/). -/
def emit_array_definite (items : List (List Nat)) : List Nat :=
  write_uint_minor 4 items.length ++ items.flatten

/-- Modelled from the spec (§6 wire format): a definite-length byte string. -/
def emit_bytes (data : List Nat) : List Nat :=
  write_uint_minor 2 data.length ++ data

end Hardy.Cbor

namespace Hardy.Crc

/-! ## C9 — CRC computation and the block CRC field (src/bpv7/src/crc.rs)

The Rust code uses the external `crc` crate's `CRC_16_IBM_SDLC`
(CRC-16/X.25: reflected, poly 0x1021, init 0xFFFF, xorout 0xFFFF) and
`CRC_32_ISCSI` (CRC-32/Castagnoli: reflected, poly 0x1EDC6F41, init/xorout
0xFFFFFFFF).  Both are modelled by the standard reflected bitwise CRC:
bytes are fed least-significant bit first through a shift register with
the reversed polynomial. -/

/-- One bit step of a reflected CRC: xor the incoming bit into the low bit
of the state, shift right, and fold in the reversed polynomial when the
ejected bit was set. -/
def crcStep (poly : Nat) (s : Nat) (b : Bool) : Nat :=
  if xor (s.testBit 0) b then (s >>> 1) ^^^ poly else s >>> 1

/-- Run the shift register over a bit stream. -/
def crcFold (poly init : Nat) (bits : List Bool) : Nat :=
  bits.foldl (crcStep poly) init

/-- The bits of one byte, least significant first (reflected input). -/
def byteBits (x : Nat) : List Bool :=
  (List.range 8).map (fun i => x.testBit i)

/-- The bit stream of a byte sequence. -/
def dataBits (data : List Nat) : List Bool :=
  data.flatMap byteBits

/-- A complete reflected CRC over a byte sequence. -/
def crcBytes (poly init xorout : Nat) (data : List Nat) : Nat :=
  crcFold poly init (dataBits data) ^^^ xorout

/-- CRC-16/X.25 (`crc` crate `CRC_16_IBM_SDLC`): reversed polynomial
0x8408 of 0x1021, init and xorout 0xFFFF. -/
def crc16_x25 (data : List Nat) : Nat :=
  crcBytes 0x8408 0xFFFF 0xFFFF data

/-- CRC-32/Castagnoli (`crc` crate `CRC_32_ISCSI`): reversed polynomial
0x82F63B78 of 0x1EDC6F41, init and xorout 0xFFFFFFFF. -/
def crc32_castagnoli (data : List Nat) : Nat :=
  crcBytes 0x82F63B78 0xFFFFFFFF 0xFFFFFFFF data

/-- `u16::to_be_bytes`. -/
def toBe2 (v : Nat) : List Nat := [(v >>> 8) &&& 0xFF, v &&& 0xFF]

/-- `u32::to_be_bytes`. -/
def toBe4 (v : Nat) : List Nat :=
  [(v >>> 24) &&& 0xFF, (v >>> 16) &&& 0xFF, (v >>> 8) &&& 0xFF, v &&& 0xFF]

/-- src/bpv7/src/crc.rs lines 140-159, `append_crc_value`: push the CBOR
definite byte-string header of the CRC length (0x42 or 0x44), compute the
digest over the block with the CRC value bytes as zero, and append the
big-endian CRC value. -/
def append_crc_value (crc_type : CrcType) (data : List Nat) : List Nat :=
  match crc_type with
  | .crc16_x25 =>
      let d := data ++ [0x42]
      d ++ toBe2 (crc16_x25 (d ++ [0, 0]))
  | .crc32_castagnoli =>
      let d := data ++ [0x44]
      d ++ toBe4 (crc32_castagnoli (d ++ [0, 0, 0, 0]))
  | .none => data

/-- The errors of src/bpv7/src/crc.rs `CrcError` reachable from
`parse_crc_value`. -/
inductive CrcError where
  | invalidLength (len : Nat)
  | unexpectedCrcValue
  | incorrectCrc
  | missingCrc
  | incorrectType
deriving DecidableEq, Repr

/-- src/bpv7/src/crc.rs lines 68-138, `parse_crc_value`, specialised to a
block whose CRC value is the final item of the block array (as the
hardy_cbor `Array` decoder—not under src/—presents it in emitted blocks):
the final item must be the definite byte string of the declared CRC length
(header byte 0x42/0x44 at `data.length - 3` resp. `- 5`), and the digest
is recomputed over the block with the CRC value bytes zeroed
(`digest.update(&data[0..crc_start]); digest.update(&[0u8; n]);`).
Returns `Ok(shortest)` (here always `true`: the emitted field is already
shortest-form) or the CRC error. -/
def parse_crc_tail (crc_type : CrcType) (data : List Nat) : Except CrcError Bool :=
  match crc_type with
  | .none => .ok true
  | .crc16_x25 =>
      if data.length < 3 then .error .missingCrc
      else
        let hpos := data.length - 3
        let front := data.take hpos
        if data.getD hpos 0 ≠ 0x42 then .error .incorrectType
        else
          let crc_value := (data.getD (hpos + 1) 0) * 256 + data.getD (hpos + 2) 0
          if crc_value = crc16_x25 (front ++ [0x42, 0, 0]) then .ok true
          else .error .incorrectCrc
  | .crc32_castagnoli =>
      if data.length < 5 then .error .missingCrc
      else
        let hpos := data.length - 5
        let front := data.take hpos
        if data.getD hpos 0 ≠ 0x44 then .error .incorrectType
        else
          let crc_value :=
            ((((data.getD (hpos + 1) 0) * 256 + data.getD (hpos + 2) 0) * 256 +
              data.getD (hpos + 3) 0) * 256 + data.getD (hpos + 4) 0)
          if crc_value = crc32_castagnoli (front ++ [0x44, 0, 0, 0, 0]) then .ok true
          else .error .incorrectCrc

/-- The length of the CRC field `append_crc_value` appends. -/
def crc_field_len : CrcType → Nat
  | .none => 0
  | .crc16_x25 => 3
  | .crc32_castagnoli => 5

/-- Flip bit `i` of a byte sequence (byte `i / 8`, bit `i % 8`). -/
def flip_bit (data : List Nat) (i : Nat) : List Nat :=
  data.set (i / 8) ((data.getD (i / 8) 0) ^^^ (1 <<< (i % 8)))

end Hardy.Crc

namespace Hardy

/-! ## Editor (src/bpv7/src/editor.rs)

The editor's `HashMap<u64, BlockTemplate>` is modelled as an association
list with unique keys; `alookup`/`ainsert` model `get`/`insert`. -/

/-- `HashMap::get` on the association-list model. -/
def alookup {α : Type} (l : List (Nat × α)) (k : Nat) : Option α :=
  (l.find? (fun p => p.1 == k)).map (·.2)

/-- `HashMap::insert` on the association-list model: replace the entry
with this key, or append a new one. -/
def ainsert {α : Type} (l : List (Nat × α)) (k : Nat) (v : α) : List (Nat × α) :=
  if l.any (fun p => p.1 == k) then
    l.map (fun p => if p.1 == k then (k, v) else p)
  else l ++ [(k, v)]

/-- `builder::BlockTemplate` (the bpv7 builder is not under src/):
modelled from the spec §4.2 as the block type, flags, CRC type and data of
a block to be emitted by the codec. -/
structure BuilderTemplate where
  block_type : BlockType
  flags : BlockFlags := {}
  crc_type : CrcType := .none
  data : List Nat := []
deriving DecidableEq, Repr

/-- src/bpv7/src/editor.rs lines 10-13, the editor's private
`enum BlockTemplate`: an untouched block (`Keep`, copied verbatim from the
source bytes) or a new/replaced block (`Add`). -/
inductive EditorTemplate where
  | keep (t : BlockType)
  | add (t : BuilderTemplate)
deriving DecidableEq, Repr

/-- The block type a template stands for (the match arms of
`replace_extension_block`'s find). -/
def EditorTemplate.block_type : EditorTemplate → BlockType
  | .keep t => t
  | .add t => t.block_type

/-- src/bpv7/src/editor.rs lines 4-8, `struct Editor`. -/
structure Editor where
  original : Bundle
  source_data : List Nat
  blocks : List (Nat × EditorTemplate)
deriving DecidableEq, Repr

/-- src/bpv7/src/editor.rs lines 15-19, `struct BlockBuilder`. -/
structure BlockBuilder where
  editor : Editor
  block_number : Nat
  template : BuilderTemplate
deriving DecidableEq, Repr

/-- src/bpv7/src/editor.rs lines 22-32, `Editor::new`: every block of the
original bundle starts as `Keep`. -/
def Editor.new (original : Bundle) (source_data : List Nat) : Editor :=
  { original, source_data,
    blocks := original.blocks.map (fun p => (p.1, .keep p.2.block_type)) }

/-- The search loop of src/bpv7/src/editor.rs lines 39-46: the lowest
unused block number starting from 2 (`blocks.length + 1` attempts always
suffice, by pigeonhole). -/
def find_unused_number (blocks : List (Nat × EditorTemplate)) : Nat → Nat → Nat
  | 0, n => n
  | fuel + 1, n => if alookup blocks n = none then n else find_unused_number blocks fuel (n + 1)

/-- src/bpv7/src/editor.rs lines 129-139, `BlockBuilder::new`: fresh
default flags, CRC type inherited from the original bundle. -/
def BlockBuilder.mkNew (editor : Editor) (block_number : Nat) (block_type : BlockType) :
    BlockBuilder :=
  { editor, block_number,
    template := { block_type, flags := {}, crc_type := editor.original.crc_type } }

/-- src/bpv7/src/editor.rs lines 34-47, `Editor::add_extension_block`:
allocate the lowest unused block number ≥ 2 (the primary/payload panic
guards are not modelled; no call site passes those types). -/
def Editor.add_extension_block (e : Editor) (block_type : BlockType) : BlockBuilder :=
  BlockBuilder.mkNew e (find_unused_number e.blocks (e.blocks.length + 1) 2) block_type

/-- src/bpv7/src/editor.rs lines 49-79, `Editor::replace_extension_block`:
find the first block of the requested type (here: first in the list, as the
`HashMap` iteration finds an arbitrary matching entry); a `Keep` is turned
into a fresh template carrying the replaced block's flags and CRC type, an
`Add` is reused; with no match, fall through to `add_extension_block`. -/
def Editor.replace_extension_block (e : Editor) (block_type : BlockType) : BlockBuilder :=
  match (e.blocks.find? (fun p => p.2.block_type == block_type)).bind
      (fun p =>
        match p.2 with
        | .keep _ => (alookup e.original.blocks p.1).map
            (fun block =>
              (p.1, ({ block_type, flags := block.flags,
                       crc_type := block.crc_type } : BuilderTemplate)))
        | .add t => some (p.1, t)) with
  | some (n, t) => { editor := e, block_number := n, template := t }
  | none => e.add_extension_block block_type

/-- src/bpv7/src/editor.rs lines 81-87, `Editor::remove_extension_block`
(the primary/payload panic guard is not modelled; call sites guard). -/
def Editor.remove_extension_block (e : Editor) (block_number : Nat) : Editor :=
  { e with blocks := e.blocks.filter (fun p => p.1 != block_number) }

/-- src/bpv7/src/editor.rs line 153, `BlockBuilder::must_replicate`. -/
def BlockBuilder.must_replicate (b : BlockBuilder) (v : Bool) : BlockBuilder :=
  { b with template := { b.template with flags := { b.template.flags with must_replicate := v } } }

/-- src/bpv7/src/editor.rs line 180, `BlockBuilder::data`. -/
def BlockBuilder.data (b : BlockBuilder) (d : List Nat) : BlockBuilder :=
  { b with template := { b.template with data := d } }

/-- src/bpv7/src/editor.rs lines 185-190, `BlockBuilder::build`: insert the
template into the editor's block map. -/
def BlockBuilder.build (b : BlockBuilder) : Editor :=
  { b.editor with blocks := ainsert b.editor.blocks b.block_number (.add b.template) }

/-- Modelled from the spec (§9 "the Editor uses these ranges to copy
untouched blocks verbatim"): `Block::copy` (bpv7 block.rs not under src/)
re-emits the recorded byte range of the block from the source data. -/
def Block.copy (blk : Block) (source_data : List Nat) : List Nat :=
  (source_data.drop blk.data_start).take blk.data_len

/-- RFC 9171 block type codes (src/bpv7 `block_type.rs` not under src/;
codes fixed by spec §3). -/
def blockTypeCode : BlockType → Nat
  | .primary => 0
  | .payload => 1
  | .previousNode => 6
  | .bundleAge => 7
  | .hopCount => 10
  | .unrecognised c => c

/-- Block flag bits (spec §3; block_flags.rs not under src/). -/
def blockFlagsCode (f : BlockFlags) : Nat :=
  (if f.must_replicate then 1 else 0) + (if f.report_on_failure then 2 else 0) +
    (if f.delete_bundle_on_failure then 4 else 0) +
    (if f.delete_block_on_failure then 16 else 0) + f.unrecognised

/-- CRC type codes (src/bpv7/src/crc.rs `From<CrcType> for u64`). -/
def crcTypeCode : CrcType → Nat
  | .none => 0
  | .crc16_x25 => 1
  | .crc32_castagnoli => 2

/-- Modelled from the spec (§4.1 canonical block emission; the bpv7
builder is not under src/): a new block is emitted as the definite-length
block array `[type, number, flags, crc_type, data]` with the CRC field
appended per `append_crc_value`. -/
def BuilderTemplate.build (t : BuilderTemplate) (block_number : Nat) : List Nat :=
  let items := [Cbor.emit_uint (blockTypeCode t.block_type),
    Cbor.emit_uint block_number, Cbor.emit_uint (blockFlagsCode t.flags),
    Cbor.emit_uint (crcTypeCode t.crc_type), Cbor.emit_bytes t.data]
  let n := match t.crc_type with | .none => 5 | _ => 6
  Crc.append_crc_value t.crc_type (Cbor.write_uint_minor 4 n ++ items.flatten)

/-- src/bpv7/src/editor.rs lines 107-125, `Editor::build_block`: a `Keep`
is copied verbatim from the source bytes (`.expect("Mismatched block")` is
modelled as the empty emission; unreachable for source layouts), an `Add`
is emitted by the codec. -/
def Editor.build_block (e : Editor) (block_number : Nat) (t : EditorTemplate) : List Nat :=
  match t with
  | .keep _ =>
      match alookup e.original.blocks block_number with
      | some block => block.copy e.source_data
      | none => []
  | .add t => t.build block_number

/-- src/bpv7/src/editor.rs lines 89-105, `Editor::build`: an
indefinite-length outer array; the primary block (0) first, the payload
block (1) last, with the extension blocks between them in the `HashMap`'s
iteration order — passed here as `ord`, since that order is unspecified.
`none` models the `expect` panics for a missing primary/payload. -/
def Editor.build (e : Editor) (ord : List Nat) : Option (List Nat) := do
  let primary ← alookup e.blocks 0
  let payload ← alookup e.blocks 1
  let mids ← ord.mapM (fun n => (alookup e.blocks n).map (e.build_block n))
  pure ([0x9f] ++ e.build_block 0 primary ++ mids.flatten ++
    e.build_block 1 payload ++ [0xff])

end Hardy

namespace Hardy

/-! ### Association-list lemmas for the editor's block map -/

/-- Unfolding `alookup` over a cons. -/
theorem alookup_cons {α : Type} (hd : Nat × α) (tl : List (Nat × α)) (k : Nat) :
    alookup (hd :: tl) k = if (hd.1 == k) = true then some hd.2 else alookup tl k := by
  rw [alookup, List.find?_cons]
  cases h : (hd.1 == k) with
  | true => simp [h]
  | false => simp [h, alookup]

/-- Looking up the key that a whole-map overwrite targets. -/
theorem alookup_mapset_self {α : Type} (l : List (Nat × α)) (k : Nat) (v : α) :
    alookup (l.map (fun p => if p.1 == k then (k, v) else p)) k =
      if l.any (fun p => p.1 == k) then some v else none := by
  induction l with
  | nil => simp [alookup]
  | cons hd tl ih =>
    rw [List.map_cons, alookup_cons, List.any_cons]
    cases h1 : (hd.1 == k) with
    | true =>
      simp only [h1, if_pos rfl]
      simp
    | false =>
      simp only [h1, Bool.false_eq_true, if_false, Bool.false_or]
      simpa [h1] using ih

/-- A whole-map overwrite of one key leaves other lookups unchanged. -/
theorem alookup_mapset_ne {α : Type} (l : List (Nat × α)) (k k' : Nat) (v : α)
    (h : k' ≠ k) :
    alookup (l.map (fun p => if p.1 == k then (k, v) else p)) k' = alookup l k' := by
  induction l with
  | nil => simp [alookup]
  | cons hd tl ih =>
    rw [List.map_cons, alookup_cons, alookup_cons]
    cases h1 : (hd.1 == k) with
    | true =>
      obtain ⟨a, b⟩ := hd
      have hk : a = k := by simpa using h1
      subst hk
      simpa [Ne.symm h] using ih
    | false =>
      simp only [h1, Bool.false_eq_true, if_false]
      cases h2 : (hd.1 == k') with
      | true => simp [h2]
      | false => simpa [h2] using ih

/-- Appending a fresh entry makes its key found. -/
theorem alookup_append_single_self {α : Type} (l : List (Nat × α)) (k : Nat) (v : α) :
    alookup (l ++ [(k, v)]) k = if l.any (fun p => p.1 == k) then alookup l k else some v := by
  induction l with
  | nil => simp [alookup]
  | cons hd tl ih =>
    rw [List.cons_append, alookup_cons, alookup_cons, List.any_cons]
    cases h1 : (hd.1 == k) with
    | true => simp [h1]
    | false =>
      simp only [h1, Bool.false_eq_true, if_false, Bool.false_or]
      exact ih

/-- Appending an entry leaves other lookups unchanged. -/
theorem alookup_append_single_ne {α : Type} (l : List (Nat × α)) (k k' : Nat) (v : α)
    (h : k' ≠ k) : alookup (l ++ [(k, v)]) k' = alookup l k' := by
  induction l with
  | nil => simp [alookup, alookup_cons, Ne.symm h]
  | cons hd tl ih =>
    rw [List.cons_append, alookup_cons, alookup_cons]
    cases h2 : (hd.1 == k') with
    | true => simp [h2]
    | false =>
      simp only [h2, Bool.false_eq_true, if_false]
      exact ih

/-- Inserting and looking up the same key. -/
theorem alookup_ainsert_self {α : Type} (l : List (Nat × α)) (k : Nat) (v : α) :
    alookup (ainsert l k v) k = some v := by
  rw [ainsert]
  by_cases hany : l.any (fun p => p.1 == k)
  · rw [if_pos hany, alookup_mapset_self, if_pos hany]
  · rw [if_neg hany, alookup_append_single_self, if_neg hany]

/-- Inserting one key leaves other lookups unchanged. -/
theorem alookup_ainsert_ne {α : Type} (l : List (Nat × α)) (k k' : Nat) (v : α)
    (h : k' ≠ k) : alookup (ainsert l k v) k' = alookup l k' := by
  rw [ainsert]
  by_cases hany : l.any (fun p => p.1 == k)
  · rw [if_pos hany, alookup_mapset_ne l k k' v h]
  · rw [if_neg hany, alookup_append_single_ne l k k' v h]

/-- The keys after an insert: unchanged when the key was present, extended
otherwise. -/
theorem keys_ainsert {α : Type} (l : List (Nat × α)) (k : Nat) (v : α) :
    (ainsert l k v).map Prod.fst = l.map Prod.fst ∨
      ((ainsert l k v).map Prod.fst = l.map Prod.fst ++ [k] ∧
        ¬ l.any (fun p => p.1 == k) = true) := by
  rw [ainsert]
  by_cases hany : l.any (fun p => p.1 == k)
  · left
    rw [if_pos hany, List.map_map]
    apply List.map_congr_left
    intro p _
    by_cases h1 : p.1 = k
    · simp [h1]
    · simp [h1]
  · right
    rw [if_neg hany]
    simp [hany]

/-- Key uniqueness survives an insert. -/
theorem nodup_keys_ainsert {α : Type} (l : List (Nat × α)) (k : Nat) (v : α)
    (h : (l.map Prod.fst).Nodup) : ((ainsert l k v).map Prod.fst).Nodup := by
  rcases keys_ainsert l k v with heq | ⟨heq, hany⟩
  · rw [heq]; exact h
  · rw [heq]
    have hk : k ∉ l.map Prod.fst := by
      intro hc
      rcases List.mem_map.mp hc with ⟨p, hp, hpk⟩
      exact hany (List.any_eq_true.mpr ⟨p, hp, by simp [hpk]⟩)
    refine List.Nodup.append h (List.nodup_singleton _) ?_
    intro a ha hb
    rw [List.mem_singleton] at hb
    exact hk (hb ▸ ha)

/-- With unique keys, membership determines the lookup. -/
theorem alookup_eq_of_mem_nodup {α : Type} {l : List (Nat × α)} {p : Nat × α}
    (hnd : (l.map Prod.fst).Nodup) (hp : p ∈ l) : alookup l p.1 = some p.2 := by
  induction l with
  | nil => cases hp
  | cons hd tl ih =>
    rcases List.mem_cons.mp hp with rfl | hp'
    · simp [alookup_cons]
    · have hnd' := hnd
      simp only [List.map_cons, List.nodup_cons] at hnd'
      have h1 : (hd.1 == p.1) = false := by
        by_contra hc
        have : hd.1 = p.1 := by simpa using hc
        exact hnd'.1 (this ▸ List.mem_map_of_mem Prod.fst hp')
      rw [alookup_cons]
      simp only [h1, Bool.false_eq_true, if_false]
      exact ih hnd'.2 hp'

/-- Filters shorten monotonically with the predicate. -/
theorem length_filter_le_of_imp {α : Type} (l : List α) (p q : α → Bool)
    (h : ∀ x, q x = true → p x = true) :
    (l.filter q).length ≤ (l.filter p).length := by
  induction l with
  | nil => simp
  | cons hd tl ih =>
    by_cases hq : q hd = true
    · simp [List.filter_cons, hq, h hd hq, Nat.succ_le_succ ih]
    · rw [Bool.not_eq_true] at hq
      by_cases hp : p hd = true
      · simp only [List.filter_cons, hq, hp, if_pos, Bool.false_eq_true, if_false]
        exact ih.trans (Nat.le_succ _)
      · rw [Bool.not_eq_true] at hp
        simpa [List.filter_cons, hq, hp] using ih

/-- Dropping a present key strictly shrinks the tail filter. -/
theorem length_filter_succ_lt {n : Nat} {keys : List Nat} (h : n ∈ keys) :
    (keys.filter (fun k => n + 1 ≤ k)).length <
      (keys.filter (fun k => n ≤ k)).length := by
  induction keys with
  | nil => cases h
  | cons hd tl ih =>
    rcases List.mem_cons.mp h with rfl | h'
    · have h1 : decide (n ≤ n) = true := by simp
      have h2 : decide (n + 1 ≤ n) = false := by simp
      simp only [List.filter_cons, h1, h2, if_pos, Bool.false_eq_true, if_false,
        List.length_cons]
      exact Nat.lt_succ_of_le (length_filter_le_of_imp tl _ _ (by
        intro x hx
        simp only [decide_eq_true_eq] at hx ⊢
        omega))
    · by_cases hh : n ≤ hd
      · by_cases hh1 : n + 1 ≤ hd
        · have e1 : decide (n ≤ hd) = true := by simpa using hh
          have e2 : decide (n + 1 ≤ hd) = true := by simpa using hh1
          simpa [List.filter_cons, e1, e2] using Nat.succ_lt_succ (ih h')
        · have e1 : decide (n ≤ hd) = true := by simpa using hh
          have e2 : decide (n + 1 ≤ hd) = false := by simpa using hh1
          simp only [List.filter_cons, e1, e2, if_pos, Bool.false_eq_true, if_false,
            List.length_cons]
          exact Nat.lt_succ_of_lt (ih h')
      · have e1 : decide (n ≤ hd) = false := by simpa using hh
        have e2 : decide (n + 1 ≤ hd) = false := by
          simp only [decide_eq_false_iff_not]
          omega
        simpa [List.filter_cons, e1, e2] using ih h'

/-- The search loop returns an unused number whenever fewer keys ≥ the
start remain than it has attempts. -/
theorem find_unused_number_spec (blocks : List (Nat × EditorTemplate)) :
    ∀ (fuel n : Nat),
      ((blocks.map Prod.fst).filter (fun k => n ≤ k)).length < fuel →
      alookup blocks (find_unused_number blocks fuel n) = none := by
  intro fuel
  induction fuel with
  | zero => intro n h; omega
  | succ fuel ih =>
    intro n h
    rw [find_unused_number]
    by_cases hl : alookup blocks n = none
    · simp [hl]
    · rw [if_neg hl]
      apply ih
      have hn : n ∈ blocks.map Prod.fst := by
        rcases Option.ne_none_iff_exists.mp hl with ⟨v, hv⟩
        rw [alookup] at hv
        rcases Option.map_eq_some'.mp hv.symm with ⟨p, hp, _⟩
        have hmem := List.mem_of_find?_eq_some hp
        have hkey : p.1 = n := by simpa using List.find?_some hp
        exact hkey ▸ List.mem_map_of_mem Prod.fst hmem
      have := length_filter_succ_lt hn
      omega

/-- The allocated block number of `add_extension_block` is unused. -/
theorem add_extension_block_number_unused (e : Editor) (bt : BlockType) :
    alookup e.blocks (e.add_extension_block bt).block_number = none := by
  rw [Editor.add_extension_block, BlockBuilder.mkNew]
  apply find_unused_number_spec
  calc ((e.blocks.map Prod.fst).filter (fun k => 2 ≤ k)).length
      ≤ (e.blocks.map Prod.fst).length := List.length_filter_le _ _
    _ = e.blocks.length := List.length_map _ _
    _ < e.blocks.length + 1 := Nat.lt_succ_self _

end Hardy

namespace Hardy

/-! ### Properties of `replace_extension_block` -/

/-- Every path of `replace_extension_block` produces a template of the
requested type. -/
theorem replace_extension_block_type (e : Editor) (bt : BlockType) :
    (e.replace_extension_block bt).template.block_type = bt := by
  rw [Editor.replace_extension_block]
  cases hf : e.blocks.find? (fun p => p.2.block_type == bt) with
  | none => simp [Editor.add_extension_block, BlockBuilder.mkNew]
  | some p =>
    have hbt : p.2.block_type = bt := by simpa using List.find?_some hf
    cases hp : p.2 with
    | keep t =>
      cases ha : alookup e.original.blocks p.1 with
      | none => simp [hp, ha, Editor.add_extension_block, BlockBuilder.mkNew]
      | some block => simp [hp, ha]
    | add t =>
      have ht : t.block_type = bt := by
        rw [hp] at hbt
        exact hbt
      simp [hp, ht]

/-- `replace_extension_block` leaves the editor untouched (the builder
carries it). -/
theorem replace_extension_block_editor (e : Editor) (bt : BlockType) :
    (e.replace_extension_block bt).editor = e := by
  rw [Editor.replace_extension_block]
  cases hf : e.blocks.find? (fun p => p.2.block_type == bt) with
  | none => simp [Editor.add_extension_block, BlockBuilder.mkNew]
  | some p =>
    cases hp : p.2 with
    | keep t =>
      cases ha : alookup e.original.blocks p.1 with
      | none => simp [hp, ha, Editor.add_extension_block, BlockBuilder.mkNew]
      | some block => simp [hp, ha]
    | add t => simp [hp]

/-- With unique keys, the block number chosen by `replace_extension_block`
is either unused or already holds a template of the requested type. -/
theorem replace_extension_block_number (e : Editor) (bt : BlockType)
    (hnd : (e.blocks.map Prod.fst).Nodup) :
    alookup e.blocks (e.replace_extension_block bt).block_number = none ∨
      ∃ t, alookup e.blocks (e.replace_extension_block bt).block_number = some t ∧
        t.block_type = bt := by
  rw [Editor.replace_extension_block]
  cases hf : e.blocks.find? (fun p => p.2.block_type == bt) with
  | none =>
    left
    simpa [Editor.replace_extension_block, hf] using
      add_extension_block_number_unused e bt
  | some p =>
    have hbt : p.2.block_type = bt := by simpa using List.find?_some hf
    have hmem : p ∈ e.blocks := List.mem_of_find?_eq_some hf
    have hlook : alookup e.blocks p.1 = some p.2 := alookup_eq_of_mem_nodup hnd hmem
    cases hp : p.2 with
    | keep t =>
      cases ha : alookup e.original.blocks p.1 with
      | none =>
        left
        simpa [hp, ha] using add_extension_block_number_unused e bt
      | some block =>
        right
        refine ⟨p.2, ?_, hbt⟩
        simpa [hp, ha] using hlook
    | add t =>
      right
      refine ⟨p.2, ?_, hbt⟩
      simpa [hp] using hlook

/-- Unfolding `must_replicate`/`data`/`build` over a block builder: the
block map after the insert. -/
theorem build_after_mods (b : BlockBuilder) (d : List Nat) :
    (((b.must_replicate true).data d).build).blocks =
      ainsert b.editor.blocks b.block_number
        (EditorTemplate.add { b.template with
          flags := { b.template.flags with must_replicate := true },
          data := d }) := rfl

/-- The builder modifications and `build` keep the original bundle. -/
theorem build_after_mods_original (b : BlockBuilder) (d : List Nat) :
    (((b.must_replicate true).data d).build).original = b.editor.original := rfl

/-- `Editor.new` keeps the block numbers of the bundle. -/
theorem keys_editor_new (b : Bundle) (data : List Nat) :
    ((Editor.new b data).blocks.map Prod.fst) = b.blocks.map Prod.fst := by
  rw [Editor.new, List.map_map]
  rfl

end Hardy

namespace Hardy.Dispatcher

open Hardy

/-! ## C8 — extension-block updates at forward time
(src/bpa/src/dispatcher.rs lines 563-627) -/

/-- Modelled from the spec (§4.7: `now − bundle.creation_time`): the
bundle's creation instant (the bpa `get_bundle_creation` helper is not
under src/); a source without a clock (creation time 0) is dated by its
arrival minus its age. -/
def get_bundle_creation (mb : MBundle) : Nat :=
  if mb.bundle.id.timestamp.creation_time ≠ 0 then
    mb.bundle.id.timestamp.creation_time
  else
    (mb.metadata.received_at.getD 0) - (mb.bundle.age.getD 0)

/-- src/bpa/src/dispatcher.rs lines 563-627,
`Dispatcher::update_extension_blocks`: replace `PreviousNode` with the
admin endpoint chosen for the destination (its CBOR encoding is the
`admin_ep` argument), increment the `HopCount` count with the limit
untouched, and refresh `BundleAge` (flagging the egress time-sensitive)
when an age block exists or the source had no clock.  Returns the editor
holding the rewritten block map and the `time_sensitive` flag. -/
def update_extension_blocks (mb : MBundle) (data : List Nat) (admin_ep : List Nat)
    (now : Nat) : Editor × Bool :=
  let editor :=
    ((((Editor.new mb.bundle data).replace_extension_block
        .previousNode).must_replicate true).data
      (Cbor.emit_array_definite [admin_ep])).build
  let editor :=
    match mb.bundle.hop_count with
    | some hop_count =>
        ((((editor.replace_extension_block .hopCount).must_replicate true).data
          (Cbor.emit_array_definite
            [Cbor.emit_uint hop_count.limit,
              Cbor.emit_uint (hop_count.count + 1)])).build)
    | none => editor
  match (match mb.bundle.age with
         | some _ => some (get_bundle_creation mb)
         | none =>
           if mb.bundle.id.timestamp.creation_time = 0 then
             some (get_bundle_creation mb)
           else none).map (fun creation => now - creation) with
  | some bundle_age =>
      (((((editor.replace_extension_block .bundleAge).must_replicate true).data
        (Cbor.emit_array_definite [Cbor.emit_uint bundle_age])).build), true)
  | none => (editor, false)

end Hardy.Dispatcher

namespace Hardy.Inputs

open Hardy

/-- A hop-count block recorded at bytes [10, 13). -/
def hopBlock : Block := { block_type := .hopCount, data_start := 10, data_len := 3 }

/-- Primary block bytes [1, 10). -/
def primaryBlock : Block := { block_type := .primary, data_start := 1, data_len := 9 }

/-- Payload block bytes [13, 18). -/
def payloadBlock : Block := { block_type := .payload, data_start := 13, data_len := 5 }

/-- A bundle carrying `HopCount{limit 1, count 0}`: its incremented count
reaches the limit. -/
def mbHop : MBundle :=
  { metadata := { status := .dispatchPending, storage_name := some "blob2",
                  hash := some [2], received_at := some 1100 },
    bundle := { id := idA, lifetime := 60000, destination := .ipn 0 9 1,
                hop_count := some ⟨1, 0⟩,
                blocks := [(0, primaryBlock), (2, hopBlock), (1, payloadBlock)] } }

end Hardy.Inputs

namespace Hardy

open Hardy.Dispatcher in
/-- C8 (amended): at forward time `update_extension_blocks` rewrites the
`HopCount` block to carry the count incremented by one with the limit
unchanged; but the hop-limit check happens only at ingress
(`check_bundle`), against the stored, un-incremented count: a non-expired
bundle is dropped with `HopLimitExceeded` exactly when the stored
`count ≥ limit` — a bundle whose incremented count reaches the limit is
still forwarded. -/
theorem update_extension_blocks_hop_increment (mb : MBundle)
    (data admin_ep : List Nat) (now : Nat) (sr : Bool) (h : HopInfo)
    (hhop : mb.bundle.hop_count = some h)
    (hnd : (mb.bundle.blocks.map Prod.fst).Nodup) :
    (∃ n tmpl,
      alookup (update_extension_blocks mb data admin_ep now).1.blocks n =
          some (.add tmpl) ∧
        tmpl.block_type = .hopCount ∧
        tmpl.data = Cbor.emit_array_definite
          [Cbor.emit_uint h.limit, Cbor.emit_uint (h.count + 1)] ∧
        tmpl.flags.must_replicate = true)
    ∧ (mb.has_expired now = false →
        ((Ingress.check_bundle sr mb now none).2 = some .hopLimitExceeded ↔
          h.limit ≤ h.count)) := by
  constructor
  · -- the editor chain
    have he0nd : (((Editor.new mb.bundle data).blocks.map Prod.fst)).Nodup := by
      rw [keys_editor_new]; exact hnd
    -- previous-node step
    set b1 := (Editor.new mb.bundle data).replace_extension_block .previousNode with hb1
    set e1 := ((b1.must_replicate true).data
      (Cbor.emit_array_definite [admin_ep])).build with he1
    have he1blocks : e1.blocks = ainsert b1.editor.blocks b1.block_number
        (EditorTemplate.add { b1.template with
          flags := { b1.template.flags with must_replicate := true },
          data := Cbor.emit_array_definite [admin_ep] }) := build_after_mods b1 _
    have hb1ed : b1.editor = Editor.new mb.bundle data :=
      replace_extension_block_editor _ _
    have he1nd : (e1.blocks.map Prod.fst).Nodup := by
      rw [he1blocks, hb1ed]
      exact nodup_keys_ainsert _ _ _ he0nd
    -- hop-count step
    set b2 := e1.replace_extension_block .hopCount with hb2
    set hopData := Cbor.emit_array_definite
      [Cbor.emit_uint h.limit, Cbor.emit_uint (h.count + 1)] with hhd
    set T2 : BuilderTemplate := { b2.template with
      flags := { b2.template.flags with must_replicate := true },
      data := hopData } with hT2
    set e2 := ((b2.must_replicate true).data hopData).build with he2
    have hb2ed : b2.editor = e1 := replace_extension_block_editor _ _
    have he2blocks : e2.blocks = ainsert e1.blocks b2.block_number
        (EditorTemplate.add T2) := by
      rw [he2, build_after_mods, hb2ed]
    have he2q : alookup e2.blocks b2.block_number = some (.add T2) := by
      rw [he2blocks]
      exact alookup_ainsert_self _ _ _
    have he2nd : (e2.blocks.map Prod.fst).Nodup := by
      rw [he2blocks]
      exact nodup_keys_ainsert _ _ _ he1nd
    have hT2type : T2.block_type = .hopCount := by
      rw [hT2]
      exact replace_extension_block_type e1 .hopCount
    -- the final editor depends on the bundle-age branch
    rw [update_extension_blocks]
    simp only [hhop]
    cases hage : (match mb.bundle.age with
        | some _ => some (get_bundle_creation mb)
        | none =>
          if mb.bundle.id.timestamp.creation_time = 0 then
            some (get_bundle_creation mb)
          else none).map (fun creation => now - creation) with
    | none =>
      refine ⟨b2.block_number, T2, ?_, hT2type, by rw [hT2], by rw [hT2]⟩
      simpa [hage] using he2q
    | some bundle_age =>
      set b3 := e2.replace_extension_block .bundleAge with hb3
      have hb3ed : b3.editor = e2 := replace_extension_block_editor _ _
      have hq3 : b3.block_number ≠ b2.block_number := by
        rcases replace_extension_block_number e2 .bundleAge he2nd with hnone | ⟨t, ht, htt⟩
        · intro hc
          rw [hc, he2q] at hnone
          cases hnone
        · intro hc
          rw [hc, he2q] at ht
          injection ht with hv
          rw [← hv] at htt
          simp only [EditorTemplate.block_type] at htt
          rw [hT2type] at htt
          cases htt
      refine ⟨b2.block_number, T2, ?_, hT2type, by rw [hT2], by rw [hT2]⟩
      have hfinal : (((b3.must_replicate true).data
          (Cbor.emit_array_definite [Cbor.emit_uint bundle_age])).build).blocks =
          ainsert e2.blocks b3.block_number
            (EditorTemplate.add { b3.template with
              flags := { b3.template.flags with must_replicate := true },
              data := Cbor.emit_array_definite [Cbor.emit_uint bundle_age] }) := by
        rw [build_after_mods, hb3ed]
      simp only [hage]
      rw [hfinal, alookup_ainsert_ne _ _ _ _ (Ne.symm hq3)]
      exact he2q
  · -- the ingress check uses the stored count
    intro hexp
    by_cases hl : h.limit ≤ h.count
    · simp [Ingress.check_bundle, hexp, hhop, hl]
    · have hsnd := Ingress.check_extension_blocks_go_snd sr mb mb.bundle.blocks false
      simp only [Ingress.check_bundle, hexp, hhop, Bool.false_eq_true, if_false,
        Ingress.check_extension_blocks]
      rw [if_neg hl, hsnd]
      by_cases hany : mb.bundle.blocks.any
          (fun p => p.2.block_type.isUnrecognised &&
            p.2.flags.delete_bundle_on_failure)
      · simp [hany, hl]
      · simp [hany, hl]

/-- C8 witness: at a bundle carrying `HopCount{limit 1, count 0}` the
amended theorem applies: the egress hop count is 1 with limit 1, and the
non-expired bundle is not dropped (1 ≤ 0 fails). -/
theorem update_extension_blocks_hop_increment_witness :
    (∃ n tmpl,
      alookup (Dispatcher.update_extension_blocks Inputs.mbHop (List.range 18)
          [0xC0] 2000).1.blocks n = some (.add tmpl) ∧
        tmpl.block_type = .hopCount ∧
        tmpl.data = Cbor.emit_array_definite
          [Cbor.emit_uint (1 : Nat), Cbor.emit_uint (0 + 1)] ∧
        tmpl.flags.must_replicate = true)
    ∧ (Inputs.mbHop.has_expired 2000 = false →
        ((Ingress.check_bundle true Inputs.mbHop 2000 none).2 =
            some .hopLimitExceeded ↔ (1 : Nat) ≤ 0)) :=
  update_extension_blocks_hop_increment Inputs.mbHop (List.range 18) [0xC0] 2000
    true ⟨1, 0⟩ rfl (by decide)

/-- C8 counterexample: the claim said a bundle whose incremented hop count
reaches its limit "is not forwarded and is dropped with reason
HopLimitExceeded".  At `HopCount{limit 1, count 0}` the ingress check
passes (it compares the stored count 0, not the incremented one) and
`update_extension_blocks` emits the egress hop-count block
`[limit 1, count 1]` — the bundle is handed to the CLA with
count = limit. -/
theorem hop_limit_not_checked_after_increment :
    Ingress.check_bundle true Inputs.mbHop 0 none = ([], none)
    ∧ Inputs.mbHop.bundle.hop_count = some ⟨1, 0⟩
    ∧ alookup (Dispatcher.update_extension_blocks Inputs.mbHop (List.range 18)
          [0xC0] 0).1.blocks 2 =
        some (.add { block_type := .hopCount, flags := { must_replicate := true },
                     crc_type := .none, data := [0x82, 1, 1] }) := by
  refine ⟨?_, rfl, ?_⟩ <;> rfl

end Hardy

namespace Hardy.Forward

open Hardy

/-! ## C5 — the forward_bundle retry loop
(src/bpa/src/dispatcher/forward.rs lines 4-155; the same loop exists in the
older monolith src/bpa/src/dispatcher.rs lines 450-517, where the retry
comparison is strict).

One iteration of the loop is modelled as a function of the loop state
(destination, `previous` latch, retry counter) and an environment giving
the FIB, the CLA responses and the data availability; the suspension
points (`bundle_wait`, `cancellable_sleep`) terminate the iteration and
are returned as outcomes. -/

/-- An entry of `ForwardAction::clas` (a CLA handle). -/
structure ClaEntry where
  handle : Nat
deriving DecidableEq, Repr

/-- `cla_registry::ForwardBundleResult` (the new cla_registry is not under
src/; the variants are those matched in forward.rs lines 67-99). -/
inductive ClaForwardResult where
  | sent
  | pending (handle : Nat) (til : Option Nat)
  | congested (til : Nat)
  | error
deriving DecidableEq, Repr

/-- `fib::ForwardAction`: ordered CLA list plus an optional wait hint
(spec §4.4). -/
structure ForwardAction where
  clas : List ClaEntry
  til : Option Nat
deriving DecidableEq, Repr

/-- `fib.find`: `Err(reason)` black-holes the bundle, `Ok(action)`
forwards (spec §4.4; forward.rs lines 36-48). -/
inductive FibResult where
  | drop (reason : Option StatusReportReasonCode)
  | action (a : ForwardAction)
deriving DecidableEq, Repr

/-- The environment of one loop iteration: configuration, FIB, registry +
CLA responses (`none` models `cla_registry.find` failing for an unknown
CLA), and whether the bundle data is still in the store. -/
structure Env where
  max_forwarding_delay : Nat
  fib : Eid → FibResult
  respond : ClaEntry → Option ClaForwardResult
  data_available : Bool
  bundle : MBundle
  now : Nat

/-- The loop state of forward.rs lines 22-24. -/
structure LoopState where
  destination : Eid
  previous : Bool
  retries : Nat
deriving DecidableEq, Repr

/-- What one loop iteration does: terminate (drop/sent/wait/ack-pending/
data-gone) or continue with a new loop state after the 1 s retry sleep. -/
inductive IterResult where
  | drop (reason : Option StatusReportReasonCode)
  | sent
  | ackPending (handle : Nat) (til : Nat)
  | wait (til : Nat)
  | dataGone
  | nextIteration (st : LoopState)
deriving DecidableEq, Repr

/-- The outcome of the `for endpoint in &action.clas` pass
(forward.rs lines 52-105). -/
inductive PassResult where
  | sent
  | pending (handle : Nat) (til : Option Nat)
  | dataGone
  | fallthrough (congestion_wait : Option Nat)
deriving DecidableEq, Repr

/-- forward.rs lines 52-105: try each CLA in order; `Sent`/`Pending` stop
the pass, `Congested` accumulates the earliest retry time
(`congestion_wait.map_or(Some(until), |w| Some(w.min(until)))`), errors and
unknown CLAs move on. -/
def cla_pass (env : Env) : List ClaEntry → Option Nat → PassResult
  | [], congestion_wait => .fallthrough congestion_wait
  | c :: rest, congestion_wait =>
    match env.respond c with
    | none => cla_pass env rest congestion_wait
    | some r =>
      if env.data_available = false then .dataGone
      else
        match r with
        | .sent => .sent
        | .pending handle til => .pending handle til
        | .congested til =>
            cla_pass env rest
              (some (match congestion_wait with
                     | none => til
                     | some w => min w til))
        | .error => cla_pass env rest congestion_wait

/-- forward.rs lines 26-154, one iteration of the `loop`: check expiry,
consult the FIB, run the CLA pass, then handle congestion, the retry
budget (`retries >= self.config.max_forwarding_delay`), the switch of the
destination to `previous_node`/source, and the 1 s retry sleep. -/
def forward_iteration (env : Env) (st : LoopState) : IterResult :=
  if env.bundle.has_expired env.now then .drop (some .lifetimeExpired)
  else
    match env.fib st.destination with
    | .drop reason => .drop reason
    | .action a =>
      match a.til, a.clas with
      | some u, [] => .wait u
      | _, _ =>
        match cla_pass env a.clas none with
        | .sent => .sent
        | .pending handle til =>
            .ackPending handle
              (min (til.getD (env.now + 60000)) env.bundle.expiry)
        | .dataGone => .dataGone
        | .fallthrough (some u) =>
            .wait (match a.til with | some w => min w u | none => u)
        | .fallthrough none =>
            if env.max_forwarding_delay ≤ st.retries then
              if st.previous then
                .drop (some .noKnownRouteToDestinationFromHere)
              else
                .nextIteration
                  { destination :=
                      env.bundle.bundle.previous_node.getD env.bundle.bundle.id.source,
                    previous := true, retries := 0 }
            else
              .nextIteration { st with retries := st.retries + 1 }

/-- Whether a CLA response contributes neither success nor congestion
(error or unknown endpoint). -/
def unproductive (env : Env) (c : ClaEntry) : Prop :=
  env.respond c = none ∨ env.respond c = some .error

/-- A pass over CLAs that all fail (unknown or erroring, with the bundle
data still present) falls through with no congestion. -/
theorem cla_pass_all_unproductive (env : Env) (clas : List ClaEntry)
    (hdata : env.data_available = true)
    (h : ∀ c ∈ clas, unproductive env c) :
    cla_pass env clas none = .fallthrough none := by
  induction clas with
  | nil => rfl
  | cons hd tl ih =>
    rcases h hd (List.mem_cons_self hd tl) with hn | he
    · rw [cla_pass, hn]
      exact ih (fun c hc => h c (List.mem_cons_of_mem hd hc))
    · rw [cla_pass, he]
      show (if env.data_available = false then PassResult.dataGone
            else cla_pass env tl none) = PassResult.fallthrough none
      rw [if_neg (by simp [hdata])]
      exact ih (fun c hc => h c (List.mem_cons_of_mem hd hc))

end Hardy.Forward

namespace Hardy.Forward

open Hardy

/-- C5: in `forward_bundle` (src/bpa/src/dispatcher/forward.rs lines
107-153), when a full pass over the FIB's CLAs ends with no success and no
congestion wait, the destination is switched to `bundle.previous_node`
(or, absent that, `bundle.id.source`) exactly when the retry counter has
reached `max_forwarding_delay` (`retries >= max_forwarding_delay`),
resetting `retries` to 0 and setting the `previous` latch; when that
switch has already happened, the bundle is dropped with
`NoKnownRouteToDestinationFromHere`; below the budget the counter is
incremented after the 1 s sleep.  (The older monolith
src/bpa/src/dispatcher.rs line 475 compares strictly, `retries >
max_forwarding_delay`, switching one pass later.) -/
theorem forward_bundle_return_to_previous (env : Env) (st : LoopState)
    (a : ForwardAction)
    (hexp : env.bundle.has_expired env.now = false)
    (hfib : env.fib st.destination = .action a)
    (hnw : a.til = none ∨ a.clas ≠ [])
    (hpass : cla_pass env a.clas none = .fallthrough none) :
    forward_iteration env st =
      if env.max_forwarding_delay ≤ st.retries then
        if st.previous then .drop (some .noKnownRouteToDestinationFromHere)
        else .nextIteration
          { destination :=
              env.bundle.bundle.previous_node.getD env.bundle.bundle.id.source,
            previous := true, retries := 0 }
      else .nextIteration { st with retries := st.retries + 1 } := by
  obtain ⟨clas, til⟩ := a
  rw [forward_iteration, if_neg (by simp [hexp]), hfib]
  cases til with
  | none =>
    show (match cla_pass env clas none with
      | .sent => IterResult.sent
      | .pending handle til =>
          .ackPending handle
            (min (til.getD (env.now + 60000)) env.bundle.expiry)
      | .dataGone => .dataGone
      | .fallthrough (some u) =>
          .wait (match (none : Option Nat) with | some w => min w u | none => u)
      | .fallthrough none =>
          if env.max_forwarding_delay ≤ st.retries then
            if st.previous then
              .drop (some .noKnownRouteToDestinationFromHere)
            else
              .nextIteration
                { destination :=
                    env.bundle.bundle.previous_node.getD env.bundle.bundle.id.source,
                  previous := true, retries := 0 }
          else .nextIteration { st with retries := st.retries + 1 }) = _
    rw [hpass]
  | some u =>
    cases clas with
    | nil =>
      rcases hnw with hn | hc
      · cases hn
      · exact absurd rfl hc
    | cons hd tl =>
      show (match cla_pass env (hd :: tl) none with
        | .sent => IterResult.sent
        | .pending handle til =>
            .ackPending handle
              (min (til.getD (env.now + 60000)) env.bundle.expiry)
        | .dataGone => .dataGone
        | .fallthrough (some u') =>
            .wait (match (some u : Option Nat) with
                   | some w => min w u' | none => u')
        | .fallthrough none =>
            if env.max_forwarding_delay ≤ st.retries then
              if st.previous then
                .drop (some .noKnownRouteToDestinationFromHere)
              else
                .nextIteration
                  { destination :=
                      env.bundle.bundle.previous_node.getD env.bundle.bundle.id.source,
                    previous := true, retries := 0 }
            else .nextIteration { st with retries := st.retries + 1 }) = _
      rw [hpass]

end Hardy.Forward

namespace Hardy.Inputs

open Hardy

/-- A one-CLA environment whose CLA always errors. -/
def envW : Forward.Env :=
  { max_forwarding_delay := 5,
    fib := fun _ => .action ⟨[⟨1⟩], none⟩,
    respond := fun _ => some .error,
    data_available := true,
    bundle := mbHop,
    now := 0 }

end Hardy.Inputs

namespace Hardy.Forward

/-- C5 witness: with the retry counter at the budget (5) and the latch
clear, the erroring one-CLA pass makes the iteration switch the
destination to the bundle's source (`ipn 0.2.1`), set the latch and reset
the counter. -/
theorem forward_bundle_return_to_previous_witness :
    forward_iteration Inputs.envW ⟨.ipn 0 9 1, false, 5⟩ =
      .nextIteration ⟨.ipn 0 2 1, true, 0⟩ := by
  have h := forward_bundle_return_to_previous Inputs.envW ⟨.ipn 0 9 1, false, 5⟩
    ⟨[⟨1⟩], none⟩ rfl rfl (Or.inl rfl) rfl
  simpa using h

end Hardy.Forward

namespace Hardy.Store

open Hardy

/-! ## C6 — duplicate-id store (src/bpa/src/store/mod.rs lines 534-568)

`Store::store` writes the blob, composes the metadata and writes the
metadata row; a duplicate BundleId makes the metadata store return false,
upon which the just-written blob is removed.  The storage backends are
external (spec §4.3 contract): `store_data` is modelled with a
caller-supplied backend-chosen fresh storage name. -/

/-- Modelled from the spec (§4.3 bundle-data store, backends not under
src/): `store(bytes) → storage_name`, a durable write under the
implementation-chosen name. -/
def store_data (s : StoreState) (storage_name : String) (data : List Nat) : StoreState :=
  { s with blobs := s.blobs ++ [(storage_name, data)] }

/-- Models the SHA-256 of the `sha2` crate (external) as an injective
digest (src/bpa/src/store/mod.rs lines 13-15 `hash`). -/
def hash (data : List Nat) : List Nat := data

/-- Modelled from the spec (§4.3 metadata store, backends not under
src/): `store(metadata, bundle) → bool` returns false iff a row with the
same BundleId already exists; otherwise the row is inserted. -/
def store_metadata (s : StoreState) (mb : MBundle) : Bool × StoreState :=
  if s.metadata.any (fun p => p.1 == mb.bundle.id) then (false, s)
  else (true, { s with metadata := s.metadata ++ [(mb.bundle.id, mb)] })

/-- Bundle-data `remove` (spec §4.3). -/
def remove_blob (s : StoreState) (storage_name : String) : StoreState :=
  { s with blobs := s.blobs.filter (fun p => p.1 != storage_name) }

/-- src/bpa/src/store/mod.rs lines 534-568, `Store::store`: write the
blob, compose the metadata, write the metadata row; on `Ok(false)` (a row
with this BundleId exists) remove the duplicate blob and return no
metadata. -/
def store (s : StoreState) (storage_name : String) (bundle : Bundle)
    (data : List Nat) (status : BundleStatus) (received_at : Option Nat) :
    Option Metadata × StoreState :=
  let s1 := store_data s storage_name data
  let metadata : Metadata :=
    { status, storage_name := some storage_name, hash := some (hash data),
      received_at }
  match store_metadata s1 { metadata, bundle := bundle } with
  | (true, s2) => (some metadata, s2)
  | (false, s2) => (none, remove_blob s2 storage_name)

/-- Whether a metadata row with this id exists. -/
def hasId (s : StoreState) (id : BundleId) : Bool :=
  s.metadata.any (fun p => p.1 == id)

/-- Removing a name that only the final entry carries peels it off. -/
theorem remove_blob_append (s : StoreState) (name : String) (data : List Nat)
    (hfresh : ∀ p ∈ s.blobs, p.1 ≠ name) :
    remove_blob (store_data s name data) name = s := by
  rw [remove_blob, store_data]
  have h1 : s.blobs.filter (fun p => p.1 != name) = s.blobs :=
    List.filter_eq_self.mpr (fun p hp => by simpa using hfresh p hp)
  have h2 : ([(name, data)] : List (String × List Nat)).filter
      (fun p => p.1 != name) = [] := by simp
  show ({ s with blobs := (s.blobs ++ [(name, data)]).filter (fun p => p.1 != name) }
    : StoreState) = s
  rw [List.filter_append, h1, h2, List.append_nil]

/-- C6: two `Store::store` calls whose bundles carry the same `BundleId`
(src/bpa/src/store/mod.rs lines 534-568): with the id fresh and the
backend-chosen blob names fresh, the first call returns metadata; the
second call's metadata store returns false, the second call returns no
metadata, and the second call's blob is removed again, leaving the first
call's metadata row and blob (the whole store) unchanged. -/
theorem store_duplicate_id (s : StoreState) (bundle₁ bundle₂ : Bundle)
    (name₁ name₂ : String) (data₁ data₂ : List Nat)
    (status₁ status₂ : BundleStatus) (ra₁ ra₂ : Option Nat)
    (hid : bundle₂.id = bundle₁.id)
    (hfresh : hasId s bundle₁.id = false)
    (hname₂ : ∀ p ∈ (store s name₁ bundle₁ data₁ status₁ ra₁).2.blobs, p.1 ≠ name₂) :
    (store s name₁ bundle₁ data₁ status₁ ra₁).1 =
        some { status := status₁, storage_name := some name₁,
               hash := some (hash data₁), received_at := ra₁ }
    ∧ (store_metadata
        (store_data (store s name₁ bundle₁ data₁ status₁ ra₁).2 name₂ data₂)
        { metadata := { status := status₂, storage_name := some name₂,
                        hash := some (hash data₂), received_at := ra₂ },
          bundle := bundle₂ }).1 = false
    ∧ (store (store s name₁ bundle₁ data₁ status₁ ra₁).2 name₂ bundle₂ data₂
        status₂ ra₂).1 = none
    ∧ (store (store s name₁ bundle₁ data₁ status₁ ra₁).2 name₂ bundle₂ data₂
        status₂ ra₂).2 = (store s name₁ bundle₁ data₁ status₁ ra₁).2 := by
  have hmeta1 : ¬ ((store_data s name₁ data₁).metadata.any
      (fun p => p.1 == bundle₁.id)) = true := by
    rw [store_data]
    show ¬ s.metadata.any (fun p => p.1 == bundle₁.id) = true
    rw [show s.metadata.any (fun p => p.1 == bundle₁.id) = hasId s bundle₁.id from rfl,
      hfresh]
    exact Bool.false_ne_true
  have hr₁1 : (store s name₁ bundle₁ data₁ status₁ ra₁).1 =
      some { status := status₁, storage_name := some name₁,
             hash := some (hash data₁), received_at := ra₁ } := by
    rw [store, store_metadata, if_neg hmeta1]
  have hdup : ((store_data (store s name₁ bundle₁ data₁ status₁ ra₁).2 name₂
      data₂).metadata.any (fun p => p.1 == bundle₂.id)) = true := by
    show ((store s name₁ bundle₁ data₁ status₁ ra₁).2.metadata.any
      (fun p => p.1 == bundle₂.id)) = true
    rw [store, store_metadata, if_neg hmeta1]
    simp [hid]
  have hmeta2 : (store_metadata
      (store_data (store s name₁ bundle₁ data₁ status₁ ra₁).2 name₂ data₂)
      { metadata := { status := status₂, storage_name := some name₂,
                      hash := some (hash data₂), received_at := ra₂ },
        bundle := bundle₂ }).1 = false := by
    rw [store_metadata, if_pos hdup]
  refine ⟨hr₁1, hmeta2, ?_, ?_⟩
  · show (store (store s name₁ bundle₁ data₁ status₁ ra₁).2 name₂ bundle₂ data₂
        status₂ ra₂).1 = none
    rw [store, store_metadata, if_pos hdup]
  · show (store (store s name₁ bundle₁ data₁ status₁ ra₁).2 name₂ bundle₂ data₂
        status₂ ra₂).2 = _
    rw [store, store_metadata, if_pos hdup]
    show remove_blob (store_data (store s name₁ bundle₁ data₁ status₁ ra₁).2
      name₂ data₂) name₂ = _
    exact remove_blob_append _ name₂ data₂ hname₂

end Hardy.Store

namespace Hardy.Inputs

open Hardy

/-- A minimal bundle for the duplicate-store witness. -/
def bundleW : Bundle := { id := idA }

end Hardy.Inputs

namespace Hardy.Store

open Hardy

/-- C6 witness: storing the same bundle twice into an empty store under
fresh blob names "n1" and "n2": the first call returns metadata, the
second returns none and leaves the store exactly as after the first. -/
theorem store_duplicate_id_witness :
    (store {} "n1" Inputs.bundleW [1, 2] .dispatchPending none).1 =
        some { status := .dispatchPending, storage_name := some "n1",
               hash := some (hash [1, 2]), received_at := none }
    ∧ (store_metadata
        (store_data (store {} "n1" Inputs.bundleW [1, 2] .dispatchPending none).2
          "n2" [1, 2])
        { metadata := { status := .dispatchPending, storage_name := some "n2",
                        hash := some (hash [1, 2]), received_at := none },
          bundle := Inputs.bundleW }).1 = false
    ∧ (store (store {} "n1" Inputs.bundleW [1, 2] .dispatchPending none).2 "n2"
        Inputs.bundleW [1, 2] .dispatchPending none).1 = none
    ∧ (store (store {} "n1" Inputs.bundleW [1, 2] .dispatchPending none).2 "n2"
        Inputs.bundleW [1, 2] .dispatchPending none).2 =
      (store {} "n1" Inputs.bundleW [1, 2] .dispatchPending none).2 :=
  store_duplicate_id {} Inputs.bundleW Inputs.bundleW "n1" "n2" [1, 2] [1, 2]
    .dispatchPending .dispatchPending none none rfl rfl (by decide)

/-! ## C7 — the restart metadata sweep
(src/bpa/src/store/mod.rs lines 149-202)

`metadata_storage_check` streams the still-unconfirmed metadata rows:
`Tombstone` rows are ignored; every other row gets a `DepletedStorage`
deletion report (when requested) and its metadata row removed.  The
stream is the `unconfirmed` list; the metadata store is the second
component of the state. -/

/-- Whether a status is a tombstone. -/
def isTombstone : BundleStatus → Bool
  | .tombstone _ => true
  | _ => false

/-- src/bpa/src/store/mod.rs lines 149-202, `metadata_storage_check`'s
consumer loop over the unconfirmed bundles: tombstones are skipped
("Ignore Tombstones"); other rows are reported via
`report_bundle_deletion(DepletedStorage)` (modelled by
`report_bundle_deleted`, the guard in src/bpa/src/dispatcher.rs lines
720-747) and removed from the metadata store. -/
def metadata_storage_check (status_reports : Bool) (now : Nat) :
    List MBundle → List (BundleId × MBundle) →
    List Dispatcher.StatusReport × List (BundleId × MBundle)
  | [], store => ([], store)
  | mb :: rest, store =>
    if isTombstone mb.metadata.status then
      metadata_storage_check status_reports now rest store
    else
      let store' := store.filter (fun p => p.1 != mb.bundle.id)
      let r := metadata_storage_check status_reports now rest store'
      ((Dispatcher.report_bundle_deleted status_reports mb.bundle
          .depletedStorage now).toList ++ r.1, r.2)

/-- The sweep only ever removes rows. -/
theorem metadata_storage_check_subset (status_reports : Bool) (now : Nat) :
    ∀ (unconfirmed : List MBundle) (store : List (BundleId × MBundle)) (p),
      p ∈ (metadata_storage_check status_reports now unconfirmed store).2 →
      p ∈ store := by
  intro unconfirmed
  induction unconfirmed with
  | nil => intro store p hp; exact hp
  | cons mb rest ih =>
    intro store p hp
    rw [metadata_storage_check] at hp
    by_cases ht : isTombstone mb.metadata.status
    · rw [if_pos ht] at hp
      exact ih store p hp
    · rw [if_neg ht] at hp
      have := ih _ p hp
      exact List.mem_of_mem_filter this

/-- C7 (amended): after the restart blob enumeration, every unconfirmed
metadata row that is NOT a tombstone has a `DepletedStorage` deletion
report emitted (when `status_reports` is on and the bundle requests
deletion reports) and its row removed from the metadata store; tombstone
rows are skipped and retained. -/
theorem metadata_storage_check_removes_nontombstones (status_reports : Bool)
    (now : Nat) (unconfirmed : List MBundle) (store : List (BundleId × MBundle))
    (mb : MBundle) (hmem : mb ∈ unconfirmed)
    (ht : isTombstone mb.metadata.status = false) :
    (∀ p ∈ (metadata_storage_check status_reports now unconfirmed store).2,
        p.1 ≠ mb.bundle.id)
    ∧ (status_reports = true → mb.bundle.flags.delete_report_requested = true →
        { reason := .depletedStorage, deleted := some now
          : Dispatcher.StatusReport } ∈
          (metadata_storage_check status_reports now unconfirmed store).1) := by
  induction unconfirmed generalizing store with
  | nil => cases hmem
  | cons hd rest ih =>
    rcases List.mem_cons.mp hmem with rfl | hmem'
    · constructor
      · intro p hp
        rw [metadata_storage_check, if_neg (by simp [ht])] at hp
        have hp' := metadata_storage_check_subset status_reports now rest _ p hp
        have := List.of_mem_filter hp'
        simpa using this
      · intro hsr hreq
        rw [metadata_storage_check, if_neg (by simp [ht])]
        apply List.mem_append_left
        rw [Dispatcher.report_bundle_deleted, hsr, hreq]
        simp
    · by_cases hht : isTombstone hd.metadata.status
      · rw [metadata_storage_check, if_pos hht]
        exact ih store hmem'
      · rw [metadata_storage_check, if_neg hht]
        refine ⟨(ih _ hmem').1, ?_⟩
        intro hsr hreq
        exact List.mem_append_right _ ((ih _ hmem').2 hsr hreq)

end Hardy.Store

namespace Hardy.Inputs

open Hardy

/-- A tombstone metadata row (its blob was discarded long ago). -/
def mbTomb : MBundle :=
  { metadata := { status := .tombstone 10 }, bundle := bundleW }

/-- A non-tombstone row requesting deletion reports. -/
def mbDel : MBundle :=
  { metadata := { status := .dispatchPending, storage_name := some "gone" },
    bundle := { id := idA, flags := { delete_report_requested := true } } }

end Hardy.Inputs

namespace Hardy.Store

open Hardy

/-- C7 counterexample: the claim said EVERY unconfirmed metadata row is
reported and removed.  A tombstone row (here unconfirmed because its blob
is long gone) is skipped by the sweep: no report is emitted and the row
stays in the metadata store. -/
theorem metadata_storage_check_keeps_tombstones :
    metadata_storage_check true 5000 [Inputs.mbTomb] [(Inputs.idA, Inputs.mbTomb)] =
      ([], [(Inputs.idA, Inputs.mbTomb)]) := by
  rfl

/-- C7 witness: a non-tombstone unconfirmed row (delete reports requested,
reporting on) is reported with `DepletedStorage` and removed. -/
theorem metadata_storage_check_removes_nontombstones_witness :
    (∀ p ∈ (metadata_storage_check true 5000 [Inputs.mbDel]
        [(Inputs.idA, Inputs.mbDel)]).2, p.1 ≠ Inputs.mbDel.bundle.id)
    ∧ (true = true → Inputs.mbDel.bundle.flags.delete_report_requested = true →
        { reason := .depletedStorage, deleted := some 5000
          : Dispatcher.StatusReport } ∈
          (metadata_storage_check true 5000 [Inputs.mbDel]
            [(Inputs.idA, Inputs.mbDel)]).1) :=
  metadata_storage_check_removes_nontombstones true 5000 [Inputs.mbDel]
    [(Inputs.idA, Inputs.mbDel)] Inputs.mbDel (List.mem_singleton.mpr rfl)
    (by decide)

end Hardy.Store

namespace Hardy

/-! ## C4 — Editor round-trip (src/bpv7/src/editor.rs lines 21-32, 89-126) -/

/-- The recorded block ranges tile `D` contiguously from `pos` up to the
closing 0xff byte at `D.length - 1`. -/
def tiles (D : List Nat) : Nat → List (Nat × Block) → Bool
  | pos, [] => pos + 1 == D.length
  | pos, (_, blk) :: rest =>
    (blk.data_start == pos) && decide (0 < blk.data_len) &&
      decide (pos + blk.data_len + 1 ≤ D.length) &&
      tiles D (pos + blk.data_len) rest

/-- Modelled from the spec (§4.1 parse invariants; the bpv7 bundle parser
is not under src/): the witness that byte sequence `D` parsed as
`Valid(b)` with wire block order `order`: the outer value is an
indefinite-length CBOR array (`0x9f … 0xff`); the primary block (number
0) comes first and the payload block (number 1, type Payload) last; block
numbers are unique; `b`'s block map holds exactly these blocks; and the
blocks' recorded byte ranges tile `D` in wire order. -/
def IsSourceLayout (D : List Nat) (b : Bundle) (order : List (Nat × Block)) : Prop :=
  b.blocks.Perm order ∧
  (order.map Prod.fst).Nodup ∧
  (∃ blk0, order.head? = some (0, blk0)) ∧
  (∃ blkp, order.getLast? = some (1, blkp) ∧ blkp.block_type = BlockType.payload) ∧
  D.head? = some 0x9f ∧
  D.getLast? = some 0xff ∧
  tiles D 1 order = true

/-- Looking up in a freshly created editor mirrors the bundle's block map. -/
theorem alookup_editor_new (b : Bundle) (D : List Nat) (n : Nat) :
    alookup (Editor.new b D).blocks n =
      (alookup b.blocks n).map (fun blk => .keep blk.block_type) := by
  rw [Editor.new]
  induction b.blocks with
  | nil => rfl
  | cons hd tl ih =>
    rw [List.map_cons, alookup_cons, alookup_cons]
    cases h1 : (hd.1 == n) with
    | true => simp [h1]
    | false =>
      simp only [h1, Bool.false_eq_true, if_false]
      exact ih

/-- Tiled blocks copied in wire order reassemble the middle of `D`. -/
theorem tiles_flatten (D : List Nat) :
    ∀ (l : List (Nat × Block)) (pos : Nat), tiles D pos l = true →
      (l.map (fun p => p.2.copy D)).flatten =
        (D.drop pos).take (D.length - 1 - pos) := by
  intro l
  induction l with
  | nil =>
    intro pos h
    rw [tiles] at h
    have : pos + 1 = D.length := by simpa using h
    simp [Nat.sub_sub, this]
  | cons hd tl ih =>
    intro pos h
    obtain ⟨n, blk⟩ := hd
    rw [tiles] at h
    simp only [Bool.and_eq_true, beq_iff_eq, decide_eq_true_eq] at h
    obtain ⟨⟨⟨hstart, hlen⟩, hbound⟩, htl⟩ := h
    rw [List.map_cons, List.flatten_cons, ih _ htl]
    rw [Block.copy, hstart]
    have harith : D.length - 1 - pos =
        blk.data_len + (D.length - 1 - (pos + blk.data_len)) := by omega
    rw [harith, List.take_add]
    have hdd : (D.drop pos).drop blk.data_len = D.drop (pos + blk.data_len) := by
      rw [List.drop_drop]
    rw [hdd]

end Hardy

namespace Hardy

/-- `mapM` over looked-up untouched blocks succeeds and yields the
verbatim copies. -/
theorem mapM_copy_blocks (b : Bundle) (D : List Nat)
    (order : List (Nat × Block))
    (hlook : ∀ p ∈ order, alookup b.blocks p.1 = some p.2) :
    ∀ (l : List (Nat × Block)), (∀ p ∈ l, p ∈ order) →
      (l.map Prod.fst).mapM
          (fun n => (alookup (Editor.new b D).blocks n).map
            ((Editor.new b D).build_block n)) =
        some (l.map (fun p => p.2.copy D)) := by
  intro l
  induction l with
  | nil => intro _; rfl
  | cons hd t ih =>
    intro hl
    have hhd : alookup b.blocks hd.1 = some hd.2 :=
      hlook hd (hl hd (List.mem_cons_self hd t))
    have hE : alookup (Editor.new b D).blocks hd.1 =
        some (.keep hd.2.block_type) := by
      rw [alookup_editor_new, hhd]
      rfl
    have hB : (Editor.new b D).build_block hd.1 (.keep hd.2.block_type) =
        hd.2.copy D := by
      show (match alookup b.blocks hd.1 with
        | some block => block.copy D
        | none => []) = hd.2.copy D
      rw [hhd]
    rw [List.map_cons, List.map_cons, List.mapM_cons, hE]
    have ht := ih (fun p hp => hl p (List.mem_cons_of_mem hd hp))
    rw [ht]
    simp [hB]

/-- C4 (amended): for every `D` parsed as `Valid(b)` with wire order
`order`, building the unmodified editor with the extension blocks iterated
in their wire order reproduces `D` byte-for-byte.  (The editor iterates a
`HashMap`, so this order is not guaranteed; see the counterexample for a
permuted iteration.) -/
theorem editor_build_roundtrip (D : List Nat) (b : Bundle)
    (order : List (Nat × Block)) (h : IsSourceLayout D b order) :
    (Editor.new b D).build (((order.map Prod.fst).drop 1).dropLast) = some D := by
  obtain ⟨hperm, hnd, ⟨blk0, hhead⟩, ⟨blkp, hlast, hpt⟩, hD0, hDl, htiles⟩ := h
  -- decompose the wire order
  cases horder : order with
  | nil => rw [horder] at hhead; cases hhead
  | cons o0 rest =>
  rw [horder] at hhead
  have ho0 : o0 = (0, blk0) := by simpa using hhead
  subst ho0
  cases hrest : rest with
  | nil =>
    rw [horder, hrest] at hlast
    simp at hlast
  | cons r1 rtl =>
  have hrestne : rest ≠ [] := by rw [hrest]; exact List.cons_ne_nil r1 rtl
  have hrl : rest.getLast hrestne = (1, blkp) := by
    have h1 : order.getLast? = rest.getLast? := by
      rw [horder, hrest]
      exact List.getLast?_cons_cons
    have h2 : rest.getLast? = some (rest.getLast hrestne) :=
      List.getLast?_eq_getLast rest hrestne
    rw [h1, h2] at hlast
    exact (Option.some.injEq _ _ ▸ hlast : _)
  have hmids : rest.dropLast ++ [(1, blkp)] = rest := by
    rw [← hrl]
    exact List.dropLast_append_getLast hrestne
  -- the iteration order in wire order is the extension keys
  have hord : ((order.map Prod.fst).drop 1).dropLast =
      rest.dropLast.map Prod.fst := by
    rw [horder, List.map_cons, List.drop_one, List.tail_cons]
    rw [← hmids, List.map_append]
    simp
  -- unique keys transfer to the bundle's map
  have hbnd : (b.blocks.map Prod.fst).Nodup :=
    ((hperm.map Prod.fst).nodup_iff).mpr hnd
  have hlook : ∀ p ∈ order, alookup b.blocks p.1 = some p.2 := by
    intro p hp
    exact alookup_eq_of_mem_nodup hbnd (hperm.mem_iff.mpr hp)
  -- the three lookups of the build
  have hmem0 : ((0 : Nat), blk0) ∈ order := by
    rw [horder]; exact List.mem_cons_self _ _
  have hmemp : ((1 : Nat), blkp) ∈ order := by
    rw [horder, ← hmids]
    refine List.mem_cons_of_mem _ ?_
    exact List.mem_append_right _ (List.mem_singleton.mpr rfl)
  have h0 : alookup (Editor.new b D).blocks 0 = some (.keep blk0.block_type) := by
    have := hlook _ hmem0
    rw [alookup_editor_new]
    rw [show alookup b.blocks 0 = some blk0 from this]
    rfl
  have h1 : alookup (Editor.new b D).blocks 1 = some (.keep blkp.block_type) := by
    have := hlook _ hmemp
    rw [alookup_editor_new]
    rw [show alookup b.blocks 1 = some blkp from this]
    rfl
  have hB0 : (Editor.new b D).build_block 0 (.keep blk0.block_type) =
      blk0.copy D := by
    show (match alookup b.blocks 0 with
      | some block => block.copy D
      | none => []) = blk0.copy D
    rw [show alookup b.blocks 0 = some blk0 from hlook _ hmem0]
  have hBp : (Editor.new b D).build_block 1 (.keep blkp.block_type) =
      blkp.copy D := by
    show (match alookup b.blocks 1 with
      | some block => block.copy D
      | none => []) = blkp.copy D
    rw [show alookup b.blocks 1 = some blkp from hlook _ hmemp]
  have hmapM := mapM_copy_blocks b D order hlook rest.dropLast
    (by
      intro p hp
      rw [horder, ← hmids]
      exact List.mem_cons_of_mem _ (List.mem_append_left _ hp))
  -- evaluate the build
  rw [Editor.build, ← hrest, ← horder, hord]
  rw [h0, h1, hmapM]
  show some ([0x9f] ++ (Editor.new b D).build_block 0 (.keep blk0.block_type) ++
      (rest.dropLast.map (fun p => p.2.copy D)).flatten ++
      (Editor.new b D).build_block 1 (.keep blkp.block_type) ++ [0xff]) = some D
  rw [hB0, hBp]
  -- reassemble D from the tiling
  have hflat := tiles_flatten D order 1 (by rw [horder] at htiles ⊢; exact htiles)
  have hsplit : (order.map (fun p => p.2.copy D)).flatten =
      blk0.copy D ++ (rest.dropLast.map (fun p => p.2.copy D)).flatten ++
        blkp.copy D := by
    rw [horder, ← hmids, List.map_cons, List.map_append, List.flatten_cons,
      List.flatten_append]
    simp [List.append_assoc]
  have hmiddle : blk0.copy D ++
      (rest.dropLast.map (fun p => p.2.copy D)).flatten ++ blkp.copy D =
      (D.drop 1).take (D.length - 1 - 1) := by
    rw [← hsplit, hflat]
  -- bounds: D has at least three bytes
  have hlen3 : 3 ≤ D.length := by
    rw [horder, tiles] at htiles
    simp only [Bool.and_eq_true, decide_eq_true_eq] at htiles
    omega
  -- D = 0x9f :: tail and tail = middle ++ [0xff]
  obtain ⟨d0, dt, hDcons⟩ : ∃ d0 dt, D = d0 :: dt := by
    cases D with
    | nil => cases hD0
    | cons d0 dt => exact ⟨d0, dt, rfl⟩
  have hd0 : d0 = 0x9f := by
    rw [hDcons] at hD0
    simpa using hD0
  have hDne : D ≠ [] := by rw [hDcons]; exact List.cons_ne_nil _ _
  have hDgl : D.getLast hDne = 0xff := by
    have hgl := List.getLast?_eq_getLast D hDne
    rw [hgl] at hDl
    injection hDl
  have hDsplit : D.dropLast ++ [(0xff : Nat)] = D := by
    rw [← hDgl]
    exact List.dropLast_append_getLast hDne
  have hsub : D.length - 1 - 1 = D.length - 2 := by omega
  rw [hsub] at hmiddle
  have htail_take : (D.drop 1).take (D.length - 2) ++ [(0xff : Nat)] =
      D.drop 1 := by
    have htd : (D.drop 1).drop (D.length - 2) = [(0xff : Nat)] := by
      rw [List.drop_drop]
      have harith : 1 + (D.length - 2) = D.dropLast.length := by
        rw [List.length_dropLast]
        omega
      rw [harith]
      calc D.drop D.dropLast.length
          = (D.dropLast ++ [(0xff : Nat)]).drop D.dropLast.length := by
            rw [hDsplit]
        _ = [(0xff : Nat)] := List.drop_left _ _
    calc (D.drop 1).take (D.length - 2) ++ [(0xff : Nat)]
        = (D.drop 1).take (D.length - 2) ++ (D.drop 1).drop (D.length - 2) := by
          rw [htd]
      _ = D.drop 1 := List.take_append_drop _ _
  have hgoal : ([0x9f] ++ blk0.copy D ++
      (rest.dropLast.map (fun p => p.2.copy D)).flatten ++ blkp.copy D ++
      [(0xff : Nat)] : List Nat) =
      0x9f :: ((blk0.copy D ++
        (rest.dropLast.map (fun p => p.2.copy D)).flatten ++ blkp.copy D) ++
        [0xff]) := by
    simp [List.append_assoc]
  rw [hgoal, hmiddle, htail_take, hDcons, hd0]
  rfl

end Hardy

namespace Hardy.Inputs

open Hardy

/-- Ten bytes: `9f`, four 2-byte block segments, `ff`. -/
def Dex : List Nat := [0x9f, 10, 11, 20, 21, 30, 31, 40, 41, 0xff]

/-- Primary block segment `[10, 11]`. -/
def blk0ex : Block := { block_type := .primary, data_start := 1, data_len := 2 }

/-- Extension block 2, segment `[20, 21]`. -/
def blkAex : Block :=
  { block_type := .unrecognised 192, data_start := 3, data_len := 2 }

/-- Extension block 3, segment `[30, 31]`. -/
def blkBex : Block :=
  { block_type := .unrecognised 193, data_start := 5, data_len := 2 }

/-- Payload block segment `[40, 41]`. -/
def blkpex : Block := { block_type := .payload, data_start := 7, data_len := 2 }

/-- The wire order of `Dex`: primary, extensions 2 and 3, payload. -/
def orderEx : List (Nat × Block) :=
  [(0, blk0ex), (2, blkAex), (3, blkBex), (1, blkpex)]

/-- The parsed bundle of `Dex`. -/
def bex : Bundle := { id := idA, blocks := orderEx }

end Hardy.Inputs

namespace Hardy

/-- C4 counterexample: `Dex` parses as `Valid(bex)` (source layout
`orderEx` with extension blocks 2 then 3), yet building the unmodified
editor when the `HashMap` iterates the extension blocks as `[3, 2]` — a
permutation of the extension keys that the unordered map may well produce
— emits block 3 before block 2: the output is not byte-equal to `Dex`. -/
theorem editor_build_not_byte_equal :
    IsSourceLayout Inputs.Dex Inputs.bex Inputs.orderEx
    ∧ [3, 2].Perm (((Inputs.orderEx.map Prod.fst).drop 1).dropLast)
    ∧ (Editor.new Inputs.bex Inputs.Dex).build [3, 2] =
        some [0x9f, 10, 11, 30, 31, 20, 21, 40, 41, 0xff]
    ∧ some [0x9f, 10, 11, 30, 31, 20, 21, 40, 41, 0xff] ≠ some Inputs.Dex := by
  refine ⟨⟨List.Perm.refl _, by decide, ⟨Inputs.blk0ex, rfl⟩,
    ⟨Inputs.blkpex, rfl, rfl⟩, rfl, rfl, rfl⟩, by decide, rfl, by decide⟩

/-- C4 witness: at `Dex` the amended round-trip applies: iterating the
extension blocks in their wire order `[2, 3]` reproduces `Dex` exactly. -/
theorem editor_build_roundtrip_witness :
    (Editor.new Inputs.bex Inputs.Dex).build
      (((Inputs.orderEx.map Prod.fst).drop 1).dropLast) = some Inputs.Dex :=
  editor_build_roundtrip Inputs.Dex Inputs.bex Inputs.orderEx
    ⟨List.Perm.refl _, by decide, ⟨Inputs.blk0ex, rfl⟩,
      ⟨Inputs.blkpex, rfl, rfl⟩, rfl, rfl, rfl⟩

end Hardy

namespace Hardy.Crc

/-! ### CRC shift-register lemmas

The reflected CRC register of width `w` with reversed polynomial `poly`
(top bit set) is injective in the state for a fixed input bit, and two
streams differing in exactly one bit end in different states. -/

/-- One step keeps the state below `2^w`. -/
theorem crcStep_lt {w : Nat} (poly s : Nat) (b : Bool) (hp : poly < 2 ^ w)
    (hs : s < 2 ^ w) : crcStep poly s b < 2 ^ w := by
  rw [crcStep]
  have h2 : s >>> 1 < 2 ^ w := by
    rw [Nat.shiftRight_one]
    exact lt_of_le_of_lt (Nat.div_le_self s 2) hs
  by_cases hc : xor (s.testBit 0) b = true
  · rw [if_pos hc]
    exact Nat.xor_lt_two_pow h2 hp
  · rw [if_neg hc]
    exact h2

/-- The shifted state drops below `2^(w-1)`. -/
theorem half_lt {w s : Nat} (hw : 0 < w) (hs : s < 2 ^ w) : s / 2 < 2 ^ (w - 1) := by
  have h : 2 ^ w = 2 ^ (w - 1) * 2 := by
    rw [← Nat.pow_succ]
    congr 1
    omega
  omega

/-- Folding in the polynomial sets the top bit: the two step branches
never coincide. -/
theorem xor_poly_ne {w : Nat} (poly : Nat)
    (htop : poly.testBit (w - 1) = true) (x y : Nat)
    (hx : x < 2 ^ (w - 1)) (hy : y < 2 ^ (w - 1)) :
    x ^^^ poly ≠ y := by
  intro h
  have h1 : (x ^^^ poly).testBit (w - 1) = true := by
    rw [Nat.testBit_xor, Nat.testBit_eq_false_of_lt hx, htop]
    rfl
  have h2 : y.testBit (w - 1) = false := Nat.testBit_eq_false_of_lt hy
  rw [h, h2] at h1
  cases h1

/-- A step is injective in the state. -/
theorem crcStep_injOn {w : Nat} (poly : Nat) (hw : 0 < w)
    (htop : poly.testBit (w - 1) = true) (b : Bool) (s1 s2 : Nat)
    (hs1 : s1 < 2 ^ w) (hs2 : s2 < 2 ^ w)
    (h : crcStep poly s1 b = crcStep poly s2 b) : s1 = s2 := by
  rw [crcStep, crcStep, Nat.shiftRight_one, Nat.shiftRight_one] at h
  have hh1 := half_lt hw hs1
  have hh2 := half_lt hw hs2
  have hbit_of : ∀ t1 t2 : Bool, xor t1 b = xor t2 b → t1 = t2 := by
    intro t1 t2 ht
    cases t1 <;> cases t2 <;> cases b <;> first | rfl | cases ht
  by_cases hc1 : xor (s1.testBit 0) b = true
  · by_cases hc2 : xor (s2.testBit 0) b = true
    · rw [if_pos hc1, if_pos hc2] at h
      have hdiv : s1 / 2 = s2 / 2 := by
        have := congrArg (· ^^^ poly) h
        simpa [Nat.xor_cancel_right] using this
      have hbit : s1.testBit 0 = s2.testBit 0 :=
        hbit_of _ _ (by rw [hc1, hc2])
      rw [Nat.testBit_zero, Nat.testBit_zero] at hbit
      have hmod : s1 % 2 = s2 % 2 := by
        rcases Nat.mod_two_eq_zero_or_one s1 with h1 | h1 <;>
          rcases Nat.mod_two_eq_zero_or_one s2 with h2 | h2 <;>
          simp [h1, h2] at hbit ⊢
      omega
    · rw [if_pos hc1, if_neg hc2] at h
      exact absurd h (xor_poly_ne poly htop _ _ hh1 hh2)
  · by_cases hc2 : xor (s2.testBit 0) b = true
    · rw [if_neg hc1, if_pos hc2] at h
      exact absurd h.symm (xor_poly_ne poly htop _ _ hh2 hh1)
    · rw [if_neg hc1, if_neg hc2] at h
      have hbit : s1.testBit 0 = s2.testBit 0 := by
        rw [Bool.not_eq_true] at hc1 hc2
        exact hbit_of _ _ (by rw [hc1, hc2])
      rw [Nat.testBit_zero, Nat.testBit_zero] at hbit
      have hmod : s1 % 2 = s2 % 2 := by
        rcases Nat.mod_two_eq_zero_or_one s1 with h1 | h1 <;>
          rcases Nat.mod_two_eq_zero_or_one s2 with h2 | h2 <;>
          simp [h1, h2] at hbit ⊢
      omega

/-- Opposite input bits send one state to different states. -/
theorem crcStep_flip_ne {w : Nat} (poly : Nat) (hw : 0 < w)
    (htop : poly.testBit (w - 1) = true) (s : Nat) (b : Bool)
    (hs : s < 2 ^ w) : crcStep poly s b ≠ crcStep poly s (!b) := by
  have hh := half_lt hw hs
  rw [crcStep, crcStep, Nat.shiftRight_one]
  by_cases hc : xor (s.testBit 0) b = true
  · have hc' : ¬ xor (s.testBit 0) (!b) = true := by
      cases hb : s.testBit 0 <;> cases b <;> simp_all
    rw [if_pos hc, if_neg hc']
    exact xor_poly_ne poly htop _ _ hh hh
  · have hc' : xor (s.testBit 0) (!b) = true := by
      cases hb : s.testBit 0 <;> cases b <;> simp_all
    rw [if_neg hc, if_pos hc']
    exact fun h => xor_poly_ne poly htop _ _ hh hh h.symm

/-- The fold keeps the state bounded. -/
theorem crcFold_lt {w poly : Nat} (hp : poly < 2 ^ w) :
    ∀ (bits : List Bool) (s : Nat), s < 2 ^ w → crcFold poly s bits < 2 ^ w := by
  intro bits
  induction bits with
  | nil => intro s hs; exact hs
  | cons b rest ih =>
    intro s hs
    rw [crcFold, List.foldl_cons]
    exact ih _ (crcStep_lt poly s b hp hs)

/-- The fold is injective in the starting state. -/
theorem crcFold_injOn {w poly : Nat} (hw : 0 < w) (hp : poly < 2 ^ w)
    (htop : poly.testBit (w - 1) = true) :
    ∀ (bits : List Bool) (s1 s2 : Nat), s1 < 2 ^ w → s2 < 2 ^ w → s1 ≠ s2 →
      crcFold poly s1 bits ≠ crcFold poly s2 bits := by
  intro bits
  induction bits with
  | nil => intro s1 s2 _ _ hne; exact hne
  | cons b rest ih =>
    intro s1 s2 hs1 hs2 hne
    simp only [crcFold, List.foldl_cons]
    exact ih _ _ (crcStep_lt poly s1 b hp hs1) (crcStep_lt poly s2 b hp hs2)
      (fun h => hne (crcStep_injOn poly hw htop b s1 s2 hs1 hs2 h))

/-- Bit streams differing in exactly one position end in different
states. -/
theorem crcFold_flip_ne {w poly : Nat} (hw : 0 < w) (hp : poly < 2 ^ w)
    (htop : poly.testBit (w - 1) = true) (A B : List Bool) (b : Bool)
    (init : Nat) (hinit : init < 2 ^ w) :
    crcFold poly init (A ++ b :: B) ≠ crcFold poly init (A ++ (!b) :: B) := by
  simp only [crcFold, List.foldl_append, List.foldl_cons]
  have hsA : List.foldl (crcStep poly) init A < 2 ^ w := crcFold_lt hp A init hinit
  have hstep := crcStep_flip_ne poly hw htop (List.foldl (crcStep poly) init A) b hsA
  exact crcFold_injOn hw hp htop B _ _
    (crcStep_lt poly _ b hp hsA) (crcStep_lt poly _ (!b) hp hsA) hstep

end Hardy.Crc

namespace Hardy.Crc

/-! ### Byte-level consequences -/

/-- `byteBits` spelled out. -/
theorem byteBits_eq (x : Nat) :
    byteBits x = [x.testBit 0, x.testBit 1, x.testBit 2, x.testBit 3,
      x.testBit 4, x.testBit 5, x.testBit 6, x.testBit 7] := rfl

/-- Flipping bit `k` of a byte negates the `k`-th entry of its bit list. -/
theorem byteBits_flip (x k : Nat) (hk : k < 8) :
    byteBits x =
      (byteBits x).take k ++ x.testBit k :: (byteBits x).drop (k + 1) ∧
    byteBits (x ^^^ 1 <<< k) =
      (byteBits x).take k ++ (!(x.testBit k)) :: (byteBits x).drop (k + 1) := by
  have h : ∀ m, (x ^^^ 1 <<< k).testBit m = xor (x.testBit m) (decide (k = m)) := by
    intro m
    rw [Nat.one_shiftLeft, Nat.testBit_xor, Nat.testBit_two_pow]
  interval_cases k <;> exact ⟨rfl, by simp only [byteBits_eq, h]; simp⟩

/-- The bit stream of a concatenation. -/
theorem dataBits_append (l1 l2 : List Nat) :
    dataBits (l1 ++ l2) = dataBits l1 ++ dataBits l2 := by
  rw [dataBits, dataBits, dataBits, List.flatMap_append]

/-- Flipping one bit of one byte flips exactly one bit of the byte
sequence's bit stream. -/
theorem dataBits_set_flip (payload : List Nat) (j k : Nat)
    (hj : j < payload.length) (hk : k < 8) :
    ∃ A B b,
      dataBits payload = A ++ b :: B ∧
      dataBits (payload.set j ((payload.getD j 0) ^^^ (1 <<< k))) =
        A ++ (!b) :: B := by
  have hx : payload.getD j 0 = payload[j] := List.getD_eq_getElem payload 0 hj
  have hsplit : payload = payload.take j ++ payload[j] :: payload.drop (j + 1) := by
    conv_lhs => rw [← List.take_append_drop j payload]
    rw [List.drop_eq_getElem_cons hj]
  have hset : payload.set j (payload.getD j 0 ^^^ 1 <<< k) =
      payload.take j ++ (payload[j] ^^^ 1 <<< k) :: payload.drop (j + 1) := by
    rw [hx, List.set_eq_take_append_cons_drop, if_pos hj]
  obtain ⟨hb1, hb2⟩ := byteBits_flip payload[j] k hk
  refine ⟨dataBits (payload.take j) ++ (byteBits payload[j]).take k,
    (byteBits payload[j]).drop (k + 1) ++ dataBits (payload.drop (j + 1)),
    (payload[j]).testBit k, ?_, ?_⟩
  · conv_lhs => rw [hsplit]
    rw [dataBits_append]
    have : dataBits (payload[j] :: payload.drop (j + 1)) =
        byteBits payload[j] ++ dataBits (payload.drop (j + 1)) := by
      rw [dataBits, List.flatMap_cons]; rfl
    rw [this]
    conv_lhs => rw [hb1]
    simp [List.append_assoc]
  · rw [hset, dataBits_append]
    have : dataBits ((payload[j] ^^^ 1 <<< k) :: payload.drop (j + 1)) =
        byteBits (payload[j] ^^^ 1 <<< k) ++ dataBits (payload.drop (j + 1)) := by
      rw [dataBits, List.flatMap_cons]; rfl
    rw [this, hb2]
    simp [List.append_assoc]

/-- The digest stays below `2^w`. -/
theorem crcBytes_lt (w poly init xorout : Nat) (data : List Nat)
    (hp : poly < 2 ^ w) (hinit : init < 2 ^ w) (hxor : xorout < 2 ^ w) :
    crcBytes poly init xorout data < 2 ^ w :=
  Nat.xor_lt_two_pow (crcFold_lt hp _ _ hinit) hxor

/-- Flipping one bit of one payload byte changes the digest over
`payload ++ T` for any fixed tail `T`. -/
theorem crcBytes_flip_ne (w poly init xorout : Nat) (hw : 0 < w)
    (hp : poly < 2 ^ w) (htop : poly.testBit (w - 1) = true)
    (hinit : init < 2 ^ w) (payload T : List Nat) (j k : Nat)
    (hj : j < payload.length) (hk : k < 8) :
    crcBytes poly init xorout
        ((payload.set j ((payload.getD j 0) ^^^ (1 <<< k))) ++ T) ≠
      crcBytes poly init xorout (payload ++ T) := by
  obtain ⟨A, B, b, h1, h2⟩ := dataBits_set_flip payload j k hj hk
  intro h
  have hfold : crcFold poly init
      (dataBits ((payload.set j ((payload.getD j 0) ^^^ (1 <<< k))) ++ T)) =
      crcFold poly init (dataBits (payload ++ T)) := by
    have := congrArg (· ^^^ xorout) h
    simpa [crcBytes, Nat.xor_cancel_right] using this
  rw [dataBits_append, dataBits_append, h1, h2, List.append_assoc,
    List.append_assoc, List.cons_append, List.cons_append] at hfold
  exact crcFold_flip_ne hw hp htop A (B ++ dataBits T) (!b) init hinit
    (by simpa using hfold)

/-- `u16` big-endian round-trip. -/
theorem be2_value (v : Nat) (hv : v < 2 ^ 16) :
    ((v >>> 8) &&& 0xFF) * 256 + (v &&& 0xFF) = v := by
  have h1 : (0xFF : Nat) = 2 ^ 8 - 1 := rfl
  rw [h1, Nat.and_pow_two_sub_one_eq_mod, Nat.and_pow_two_sub_one_eq_mod,
    Nat.shiftRight_eq_div_pow]
  omega

/-- `u32` big-endian round-trip. -/
theorem be4_value (v : Nat) (hv : v < 2 ^ 32) :
    ((((v >>> 24) &&& 0xFF) * 256 + ((v >>> 16) &&& 0xFF)) * 256 +
      ((v >>> 8) &&& 0xFF)) * 256 + (v &&& 0xFF) = v := by
  have h1 : (0xFF : Nat) = 2 ^ 8 - 1 := rfl
  rw [h1, Nat.and_pow_two_sub_one_eq_mod, Nat.and_pow_two_sub_one_eq_mod,
    Nat.and_pow_two_sub_one_eq_mod, Nat.and_pow_two_sub_one_eq_mod,
    Nat.shiftRight_eq_div_pow, Nat.shiftRight_eq_div_pow,
    Nat.shiftRight_eq_div_pow]
  omega

/-- `getD` past an append prefix. -/
theorem getD_append_add (l1 l2 : List Nat) (k d : Nat) :
    (l1 ++ l2).getD (l1.length + k) d = l2.getD k d := by
  induction l1 with
  | nil => simp
  | cons a t ih =>
    show (a :: (t ++ l2)).getD ((a :: t).length + k) d = l2.getD k d
    have hlen : (a :: t).length + k = (t.length + k) + 1 := by
      simp [List.length_cons]; omega
    rw [hlen, List.getD_cons_succ, ih]

end Hardy.Crc

namespace Hardy.Crc

/-! ### Parsing the emitted CRC field -/

/-- `parse_crc_tail` on a block whose last three bytes are an X.25 CRC
field: compare the stored big-endian value against the digest over the
block with the value bytes zeroed. -/
theorem parse_crc_tail_x25_layout (front : List Nat) (c1 c2 : Nat) :
    parse_crc_tail .crc16_x25 (front ++ [0x42, c1, c2]) =
      if c1 * 256 + c2 = crc16_x25 (front ++ [0x42, 0, 0]) then .ok true
      else .error .incorrectCrc := by
  have hlen : (front ++ [0x42, c1, c2]).length = front.length + 3 := by simp
  have hpos : (front ++ [0x42, c1, c2]).length - 3 = front.length := by omega
  have h0 : (front ++ [0x42, c1, c2]).getD front.length 0 = 0x42 := by
    simpa using getD_append_add front [0x42, c1, c2] 0 0
  have h1 : (front ++ [0x42, c1, c2]).getD (front.length + 1) 0 = c1 :=
    getD_append_add front [0x42, c1, c2] 1 0
  have h2 : (front ++ [0x42, c1, c2]).getD (front.length + 2) 0 = c2 :=
    getD_append_add front [0x42, c1, c2] 2 0
  have htake : (front ++ [0x42, c1, c2]).take front.length = front :=
    List.take_left front [0x42, c1, c2]
  simp only [parse_crc_tail]
  rw [if_neg (by rw [hlen]; omega), hpos, h0, htake, h1, h2,
    if_neg (by simp)]

/-- `parse_crc_tail` on a block whose last five bytes are a Castagnoli
CRC field. -/
theorem parse_crc_tail_castagnoli_layout (front : List Nat)
    (c1 c2 c3 c4 : Nat) :
    parse_crc_tail .crc32_castagnoli (front ++ [0x44, c1, c2, c3, c4]) =
      if ((c1 * 256 + c2) * 256 + c3) * 256 + c4 =
          crc32_castagnoli (front ++ [0x44, 0, 0, 0, 0]) then .ok true
      else .error .incorrectCrc := by
  have hlen : (front ++ [0x44, c1, c2, c3, c4]).length = front.length + 5 := by
    simp
  have hpos : (front ++ [0x44, c1, c2, c3, c4]).length - 5 = front.length := by
    omega
  have h0 : (front ++ [0x44, c1, c2, c3, c4]).getD front.length 0 = 0x44 := by
    simpa using getD_append_add front [0x44, c1, c2, c3, c4] 0 0
  have h1 : (front ++ [0x44, c1, c2, c3, c4]).getD (front.length + 1) 0 = c1 :=
    getD_append_add front [0x44, c1, c2, c3, c4] 1 0
  have h2 : (front ++ [0x44, c1, c2, c3, c4]).getD (front.length + 2) 0 = c2 :=
    getD_append_add front [0x44, c1, c2, c3, c4] 2 0
  have h3 : (front ++ [0x44, c1, c2, c3, c4]).getD (front.length + 3) 0 = c3 :=
    getD_append_add front [0x44, c1, c2, c3, c4] 3 0
  have h4 : (front ++ [0x44, c1, c2, c3, c4]).getD (front.length + 4) 0 = c4 :=
    getD_append_add front [0x44, c1, c2, c3, c4] 4 0
  have htake : (front ++ [0x44, c1, c2, c3, c4]).take front.length = front :=
    List.take_left front [0x44, c1, c2, c3, c4]
  simp only [parse_crc_tail]
  rw [if_neg (by rw [hlen]; omega), hpos, h0, htake, h1, h2, h3, h4,
    if_neg (by simp)]

/-- The X.25 digest is a 16-bit value. -/
theorem crc16_x25_lt (data : List Nat) : crc16_x25 data < 2 ^ 16 :=
  crcBytes_lt 16 0x8408 0xFFFF 0xFFFF data (by norm_num) (by norm_num)
    (by norm_num)

/-- The Castagnoli digest is a 32-bit value. -/
theorem crc32_castagnoli_lt (data : List Nat) : crc32_castagnoli data < 2 ^ 32 :=
  crcBytes_lt 32 0x82F63B78 0xFFFFFFFF 0xFFFFFFFF data (by norm_num)
    (by norm_num) (by norm_num)

end Hardy.Crc

namespace Hardy.Crc

/-- **C9.** For every `crc_type` in {None, CRC16_X25, CRC32_CASTAGNOLI} and
every block payload, `append_crc_value` followed by `parse_crc_value`
succeeds (`Ok`) and the emitted block still starts with the payload bytes
unchanged; and for `crc_type ≠ None`, flipping any single bit of the
emitted block outside the CRC field (i.e. any payload bit) makes parsing
fail with `IncorrectCrc`. -/
theorem append_crc_parse_roundtrip_flip (ct : CrcType) (payload : List Nat) :
    (parse_crc_tail ct (append_crc_value ct payload) = .ok true ∧
      (append_crc_value ct payload).take payload.length = payload) ∧
    ∀ i, i < 8 * payload.length → ct ≠ CrcType.none →
      parse_crc_tail ct (flip_bit (append_crc_value ct payload) i) =
        .error CrcError.incorrectCrc := by
  cases ct with
  | none =>
    exact ⟨⟨rfl, List.take_length payload⟩,
      fun i hi hct => absurd rfl hct⟩
  | crc16_x25 =>
    have hlt := crc16_x25_lt (payload ++ [0x42, 0, 0])
    have hval := be2_value (crc16_x25 (payload ++ [0x42, 0, 0])) hlt
    have happ : append_crc_value CrcType.crc16_x25 payload =
        payload ++ [0x42,
          (crc16_x25 (payload ++ [0x42, 0, 0]) >>> 8) &&& 0xFF,
          crc16_x25 (payload ++ [0x42, 0, 0]) &&& 0xFF] := by
      simp [append_crc_value, toBe2, List.append_assoc]
    refine ⟨⟨?_, ?_⟩, ?_⟩
    · rw [happ, parse_crc_tail_x25_layout, if_pos hval]
    · rw [happ]
      exact List.take_left payload _
    · intro i hi _
      have hj : i / 8 < payload.length := by omega
      have hk : i % 8 < 8 := by omega
      have hget : (payload ++ [0x42,
          (crc16_x25 (payload ++ [0x42, 0, 0]) >>> 8) &&& 0xFF,
          crc16_x25 (payload ++ [0x42, 0, 0]) &&& 0xFF]).getD (i / 8) 0 =
          payload.getD (i / 8) 0 :=
        List.getD_append payload _ 0 (i / 8) hj
      rw [happ]
      simp only [flip_bit]
      rw [hget, List.set_append_left _ _ hj, parse_crc_tail_x25_layout, hval,
        if_neg]
      intro heq
      exact crcBytes_flip_ne 16 0x8408 0xFFFF 0xFFFF (by norm_num)
        (by norm_num) (by decide) (by norm_num) payload [0x42, 0, 0]
        (i / 8) (i % 8) hj hk heq.symm
  | crc32_castagnoli =>
    have hlt := crc32_castagnoli_lt (payload ++ [0x44, 0, 0, 0, 0])
    have hval := be4_value (crc32_castagnoli (payload ++ [0x44, 0, 0, 0, 0])) hlt
    have happ : append_crc_value CrcType.crc32_castagnoli payload =
        payload ++ [0x44,
          (crc32_castagnoli (payload ++ [0x44, 0, 0, 0, 0]) >>> 24) &&& 0xFF,
          (crc32_castagnoli (payload ++ [0x44, 0, 0, 0, 0]) >>> 16) &&& 0xFF,
          (crc32_castagnoli (payload ++ [0x44, 0, 0, 0, 0]) >>> 8) &&& 0xFF,
          crc32_castagnoli (payload ++ [0x44, 0, 0, 0, 0]) &&& 0xFF] := by
      simp [append_crc_value, toBe4, List.append_assoc]
    refine ⟨⟨?_, ?_⟩, ?_⟩
    · rw [happ, parse_crc_tail_castagnoli_layout, if_pos hval]
    · rw [happ]
      exact List.take_left payload _
    · intro i hi _
      have hj : i / 8 < payload.length := by omega
      have hk : i % 8 < 8 := by omega
      have hget : (payload ++ [0x44,
          (crc32_castagnoli (payload ++ [0x44, 0, 0, 0, 0]) >>> 24) &&& 0xFF,
          (crc32_castagnoli (payload ++ [0x44, 0, 0, 0, 0]) >>> 16) &&& 0xFF,
          (crc32_castagnoli (payload ++ [0x44, 0, 0, 0, 0]) >>> 8) &&& 0xFF,
          crc32_castagnoli (payload ++ [0x44, 0, 0, 0, 0]) &&& 0xFF]).getD
            (i / 8) 0 = payload.getD (i / 8) 0 :=
        List.getD_append payload _ 0 (i / 8) hj
      rw [happ]
      simp only [flip_bit]
      rw [hget, List.set_append_left _ _ hj,
        parse_crc_tail_castagnoli_layout, hval, if_neg]
      intro heq
      exact crcBytes_flip_ne 32 0x82F63B78 0xFFFFFFFF 0xFFFFFFFF (by norm_num)
        (by norm_num) (by decide) (by norm_num) payload [0x44, 0, 0, 0, 0]
        (i / 8) (i % 8) hj hk heq.symm

/-- A CRC-16/X.25 block over payload `[0xAB]` parses back `Ok`, and
flipping payload bit 0 of the emitted block fails with `IncorrectCrc`. -/
theorem append_crc_parse_roundtrip_flip_witness :
    parse_crc_tail CrcType.crc16_x25
        (append_crc_value CrcType.crc16_x25 [0xAB]) = .ok true ∧
    parse_crc_tail CrcType.crc16_x25
        (flip_bit (append_crc_value CrcType.crc16_x25 [0xAB]) 0) =
      .error CrcError.incorrectCrc :=
  ⟨(append_crc_parse_roundtrip_flip CrcType.crc16_x25 [0xAB]).1.1,
   (append_crc_parse_roundtrip_flip CrcType.crc16_x25 [0xAB]).2 0 (by decide)
     (by decide)⟩

end Hardy.Crc
